import Mathlib

/-!
# Verification of the streamlib stream/walker library

Shallow embedding of the composable stream abstraction of `streamlib`
(`src/src/stream.c`, `src/src/compression_stream.c`, `src/src/archive_stream.c`,
`src/src/walker.c`) and proofs about the properties claimed in its
specification.

Modelling conventions:
* bytes are `Nat` values (the C code only ever compares them for equality
  with constants below 256);
* a seekable in-memory byte source stands for any seekable underlying
  `struct stream` (`stream_read` on it delivers the bytes at the current
  position, `stream_seek(.., 0, SEEK_SET)` resets the position);
* all codecs are taken as compiled in (`STREAM_HAVE_ZLIB` etc. defined),
  matching the configuration the specification describes;
* heap allocation and codec initialisation are modelled by explicit
  environment flags where a claim depends on their failure behaviour.
-/

namespace Streamlib

/-! ## Errno values used by the library (from `<errno.h>`) -/

def Eio : Int := 5
def ENOMEM : Int := 12
def EBUSY : Int := 16
def EINVAL : Int := 22
def ENOSYS : Int := 38

/-! ## A seekable in-memory byte source

Stands for the underlying `struct stream` that `compression_stream_auto`
(`compression_stream.c:869-919`) probes: `stream_read` returns the next
`min(count, remaining)` bytes and advances the position, `stream_seek`
with `SEEK_SET` sets the absolute position. -/

structure ByteSource where
  data : List Nat
  pos : Nat
deriving DecidableEq, Repr

/-- `stream_read(underlying, buf, count)` on the in-memory source: delivers
the bytes from the current position, at most `count` of them. -/
def sourceRead (s : ByteSource) (count : Nat) : List Nat × ByteSource :=
  let chunk := (s.data.drop s.pos).take count
  (chunk, { s with pos := s.pos + chunk.length })

/-- `stream_seek(underlying, off, SEEK_SET)` on the in-memory source. -/
def sourceSeekSet (s : ByteSource) (off : Nat) : ByteSource :=
  { s with pos := off }

/-! ## Compression type and magic-byte detection

From `enum compression_type` (`include/stream.h:226-234`) and the
detection chain of `compression_stream_auto`
(`compression_stream.c:887-915`). -/

inductive CompressionType where
  | gzip
  | zlib
  | bzip2
  | xz
  | lzma
  | zstd
deriving DecidableEq, Repr

/-- The `if`/`else if` detection chain of `compression_stream_auto`,
applied to the up-to-16 magic bytes read from the underlying stream.
`magic.getD i 0` is only consulted under the same `nread >= k` guards the
C code uses, so the default value never matters. -/
def detectMagic (magic : List Nat) : Option CompressionType :=
  let nread := magic.length
  if 2 ≤ nread ∧ magic.getD 0 0 = 0x1f ∧ magic.getD 1 0 = 0x8b then
    some .gzip
  else if 3 ≤ nread ∧ magic.getD 0 0 = 66 ∧ magic.getD 1 0 = 90 ∧
      magic.getD 2 0 = 104 then
    some .bzip2
  else if 6 ≤ nread ∧ magic.getD 0 0 = 0xFD ∧ magic.getD 1 0 = 55 ∧
      magic.getD 2 0 = 122 ∧ magic.getD 3 0 = 88 ∧ magic.getD 4 0 = 90 ∧
      magic.getD 5 0 = 0 then
    some .xz
  else if 4 ≤ nread ∧ magic.getD 0 0 = 0x28 ∧ magic.getD 1 0 = 0xB5 ∧
      magic.getD 2 0 = 0x2F ∧ magic.getD 3 0 = 0xFD then
    some .zstd
  else
    none

/-- `compression_stream_auto` (`compression_stream.c:869-919`) over the
in-memory source: reads up to 16 magic bytes from the current position,
seeks the underlying stream to absolute offset 0 (`stream_seek(underlying,
0, SEEK_SET)`), then classifies.  On a match, `compression_stream_init`
succeeds (codec compiled in, `O_RDONLY`) and the call returns 0 with the
detected type; with no match it returns `-EINVAL`.  The second component
is the underlying source after the call. -/
def compression_stream_auto (u : ByteSource) :
    Except Int CompressionType × ByteSource :=
  let rd := sourceRead u 16
  let u2 := sourceSeekSet rd.2 0
  match detectMagic rd.1 with
  | some t => (.ok t, u2)
  | none => (.error (-EINVAL), u2)

/-! ### Signature predicates (the spec's magic table, `spec.md` §6) -/

/-- The next bytes begin with `1F 8B`. -/
def startsGzip (bs : List Nat) : Prop :=
  2 ≤ bs.length ∧ bs.getD 0 0 = 0x1f ∧ bs.getD 1 0 = 0x8b

/-- The next bytes begin with `42 5A 68` ("BZh"). -/
def startsBzip2 (bs : List Nat) : Prop :=
  3 ≤ bs.length ∧ bs.getD 0 0 = 66 ∧ bs.getD 1 0 = 90 ∧ bs.getD 2 0 = 104

/-- The next bytes begin with `FD 37 7A 58 5A 00`. -/
def startsXz (bs : List Nat) : Prop :=
  6 ≤ bs.length ∧ bs.getD 0 0 = 0xFD ∧ bs.getD 1 0 = 55 ∧
    bs.getD 2 0 = 122 ∧ bs.getD 3 0 = 88 ∧ bs.getD 4 0 = 90 ∧
    bs.getD 5 0 = 0

/-- The next bytes begin with `28 B5 2F FD`. -/
def startsZstd (bs : List Nat) : Prop :=
  4 ≤ bs.length ∧ bs.getD 0 0 = 0x28 ∧ bs.getD 1 0 = 0xB5 ∧
    bs.getD 2 0 = 0x2F ∧ bs.getD 3 0 = 0xFD

instance (bs : List Nat) : Decidable (startsGzip bs) := by
  unfold startsGzip; infer_instance

instance (bs : List Nat) : Decidable (startsBzip2 bs) := by
  unfold startsBzip2; infer_instance

instance (bs : List Nat) : Decidable (startsXz bs) := by
  unfold startsXz; infer_instance

instance (bs : List Nat) : Decidable (startsZstd bs) := by
  unfold startsZstd; infer_instance

/-! ### Bridging: the 16-byte probe sees the same signatures as the
remaining byte sequence -/

lemma take_getD_eq (l : List Nat) (n i : Nat) (h : i < n) :
    (l.take n).getD i 0 = l.getD i 0 := by
  simp only [List.getD_eq_getElem?_getD, List.getElem?_take, h, if_true]

lemma length_take_le_iff (l : List Nat) (n k : Nat) (hk : k ≤ n) :
    k ≤ (l.take n).length ↔ k ≤ l.length := by
  simp only [List.length_take]
  omega

lemma detectMagic_take16_gzip {bs : List Nat} (h : startsGzip bs) :
    detectMagic (bs.take 16) = some .gzip := by
  obtain ⟨hl, h0, h1⟩ := h
  unfold detectMagic
  rw [take_getD_eq bs 16 0 (by omega), take_getD_eq bs 16 1 (by omega),
      if_pos ⟨(length_take_le_iff bs 16 2 (by omega)).2 hl, h0, h1⟩]

lemma detectMagic_take16_bzip2 {bs : List Nat} (h : startsBzip2 bs) :
    detectMagic (bs.take 16) = some .bzip2 := by
  obtain ⟨hl, h0, h1, h2⟩ := h
  unfold detectMagic
  rw [take_getD_eq bs 16 0 (by omega), take_getD_eq bs 16 1 (by omega),
      take_getD_eq bs 16 2 (by omega)]
  rw [if_neg (by simp only [List.getD_eq_getElem?_getD] at h0 ⊢; simp [h0]), if_pos ⟨(length_take_le_iff bs 16 3 (by omega)).2 hl, h0, h1, h2⟩]

lemma detectMagic_take16_xz {bs : List Nat} (h : startsXz bs) :
    detectMagic (bs.take 16) = some .xz := by
  obtain ⟨hl, h0, h1, h2, h3, h4, h5⟩ := h
  unfold detectMagic
  rw [take_getD_eq bs 16 0 (by omega), take_getD_eq bs 16 1 (by omega),
      take_getD_eq bs 16 2 (by omega), take_getD_eq bs 16 3 (by omega),
      take_getD_eq bs 16 4 (by omega), take_getD_eq bs 16 5 (by omega)]
  rw [if_neg (by simp only [List.getD_eq_getElem?_getD] at h0 ⊢; simp [h0]), if_neg (by simp only [List.getD_eq_getElem?_getD] at h0 ⊢; simp [h0]),
      if_pos ⟨(length_take_le_iff bs 16 6 (by omega)).2 hl, h0, h1, h2, h3, h4, h5⟩]

lemma detectMagic_take16_zstd {bs : List Nat} (h : startsZstd bs) :
    detectMagic (bs.take 16) = some .zstd := by
  obtain ⟨hl, h0, h1, h2, h3⟩ := h
  unfold detectMagic
  rw [take_getD_eq bs 16 0 (by omega), take_getD_eq bs 16 1 (by omega),
      take_getD_eq bs 16 2 (by omega), take_getD_eq bs 16 3 (by omega)]
  rw [if_neg (by simp only [List.getD_eq_getElem?_getD] at h0 ⊢; simp [h0]), if_neg (by simp only [List.getD_eq_getElem?_getD] at h0 ⊢; simp [h0]), if_neg (by simp only [List.getD_eq_getElem?_getD] at h0 ⊢; simp [h0]),
      if_pos ⟨(length_take_le_iff bs 16 4 (by omega)).2 hl, h0, h1, h2, h3⟩]

lemma auto_fst (data : List Nat) (pos : Nat) :
    (compression_stream_auto ⟨data, pos⟩).1 =
      (match detectMagic ((data.drop pos).take 16) with
        | some t => Except.ok t
        | none => Except.error (-EINVAL)) := by
  unfold compression_stream_auto sourceRead sourceSeekSet
  cases h : detectMagic ((data.drop pos).take 16) <;> simp [h]

lemma auto_snd (data : List Nat) (pos : Nat) :
    (compression_stream_auto ⟨data, pos⟩).2 = ⟨data, 0⟩ := by
  unfold compression_stream_auto sourceRead sourceSeekSet
  cases h : detectMagic ((data.drop pos).take 16) <;> simp [h]

lemma detectMagic_take16_none {bs : List Nat} (hg : ¬ startsGzip bs)
    (hb : ¬ startsBzip2 bs) (hx : ¬ startsXz bs) (hz : ¬ startsZstd bs) :
    detectMagic (bs.take 16) = none := by
  unfold detectMagic
  rw [take_getD_eq bs 16 0 (by omega), take_getD_eq bs 16 1 (by omega),
      take_getD_eq bs 16 2 (by omega), take_getD_eq bs 16 3 (by omega),
      take_getD_eq bs 16 4 (by omega), take_getD_eq bs 16 5 (by omega)]
  rw [if_neg, if_neg, if_neg, if_neg]
  · intro h
    exact hz ⟨(length_take_le_iff bs 16 4 (by omega)).1 h.1, h.2.1, h.2.2.1, h.2.2.2⟩
  · intro h
    exact hx ⟨(length_take_le_iff bs 16 6 (by omega)).1 h.1, h.2.1, h.2.2.1,
      h.2.2.2.1, h.2.2.2.2.1, h.2.2.2.2.2⟩
  · intro h
    exact hb ⟨(length_take_le_iff bs 16 3 (by omega)).1 h.1, h.2.1, h.2.2.1, h.2.2.2⟩
  · intro h
    exact hg ⟨(length_take_le_iff bs 16 2 (by omega)).1 h.1, h.2.1, h.2.2⟩

/-! ### C1 -/

/-- C1, counterexample: on a seekable source whose bytes carry no
compression signature, starting at position 3, `compression_stream_auto`
does return `-EINVAL`, but the underlying stream's position after the
call is 0, not the pre-call position 3 — the code executes
`stream_seek(underlying, 0, SEEK_SET)`, not a restore of the original
position (`compression_stream.c:883`). -/
theorem C1_counterexample :
    (compression_stream_auto ⟨[0, 0, 0, 0, 0], 3⟩).1 = .error (-EINVAL) ∧
    (compression_stream_auto ⟨[0, 0, 0, 0, 0], 3⟩).2.pos = 0 ∧
    ¬ (compression_stream_auto ⟨[0, 0, 0, 0, 0], 3⟩).2.pos = 3 := by
  refine ⟨rfl, rfl, by decide⟩

/-- C1, amended: for every seekable underlying stream and every starting
position, `compression_stream_auto` classifies a stream whose next bytes
begin with `1F 8B` as Gzip, `42 5A 68` as Bzip2, `FD 37 7A 58 5A 00` as
Xz and `28 B5 2F FD` as Zstd; when none of these signatures matches it
returns `-EINVAL`; in every case the underlying stream is positioned at
absolute offset 0 after the call (which equals the pre-call position
exactly when detection started at the beginning of the stream). -/
theorem C1_auto_detect (data : List Nat) (pos : Nat) :
    (startsGzip (data.drop pos) →
      (compression_stream_auto ⟨data, pos⟩).1 = .ok .gzip) ∧
    (startsBzip2 (data.drop pos) →
      (compression_stream_auto ⟨data, pos⟩).1 = .ok .bzip2) ∧
    (startsXz (data.drop pos) →
      (compression_stream_auto ⟨data, pos⟩).1 = .ok .xz) ∧
    (startsZstd (data.drop pos) →
      (compression_stream_auto ⟨data, pos⟩).1 = .ok .zstd) ∧
    (¬ startsGzip (data.drop pos) → ¬ startsBzip2 (data.drop pos) →
      ¬ startsXz (data.drop pos) → ¬ startsZstd (data.drop pos) →
      (compression_stream_auto ⟨data, pos⟩).1 = .error (-EINVAL)) ∧
    (compression_stream_auto ⟨data, pos⟩).2.pos = 0 := by
  refine ⟨fun h => ?_, fun h => ?_, fun h => ?_, fun h => ?_,
    fun hg hb hx hz => ?_, ?_⟩
  · rw [auto_fst, detectMagic_take16_gzip h]
  · rw [auto_fst, detectMagic_take16_bzip2 h]
  · rw [auto_fst, detectMagic_take16_xz h]
  · rw [auto_fst, detectMagic_take16_zstd h]
  · rw [auto_fst, detectMagic_take16_none hg hb hx hz]
  · rw [auto_snd]

/-- C1, witness: the amended theorem at two concrete inputs — a gzip
signature is classified as Gzip, and a zstd signature as Zstd. -/
theorem C1_auto_detect_witness :
    (compression_stream_auto ⟨[0x1f, 0x8b, 8, 0], 0⟩).1 = .ok .gzip ∧
    (compression_stream_auto ⟨[0x28, 0xB5, 0x2F, 0xFD, 1], 0⟩).1 =
      .ok .zstd :=
  ⟨(C1_auto_detect [0x1f, 0x8b, 8, 0] 0).1 (by decide),
   (C1_auto_detect [0x28, 0xB5, 0x2F, 0xFD, 1] 0).2.2.2.1 (by decide)⟩

/-! ## Decorator close and ownership (C2)

From `compression_stream_close_impl` (`compression_stream.c:694-866`) and
`archive_stream_close` (`archive_stream.c:381-411`).  Only the parts that
decide whether the underlying stream is closed are modelled: the codec
finalisation / entry finishing that precedes them touches codec-internal
resources only. -/

def EBADF : Int := 9

/-- The underlying stream, as observed by a decorator's close path. -/
structure Underlying where
  closed : Bool
  data : List Nat
  pos : Nat
deriving DecidableEq, Repr

/-- Reading from the underlying stream: fails once it has been closed,
otherwise delivers the next bytes. -/
def underlyingRead (u : Underlying) (count : Nat) :
    Except Int (List Nat) × Underlying :=
  if u.closed then (.error (-EBADF), u)
  else
    let chunk := (u.data.drop u.pos).take count
    (.ok chunk, { u with pos := u.pos + chunk.length })

/-- Close-relevant state of `struct compression_stream`. -/
structure CompCloseState where
  codec_state : Bool      -- `stream->codec_state != NULL`
  owns_underlying : Bool
  underlyingPresent : Bool -- `stream->underlying != NULL`
deriving DecidableEq, Repr

/-- `compression_stream_close_impl`: returns 0 immediately if
`codec_state` is `NULL`; otherwise finalises and frees the codec state
(setting it to `NULL`) and closes the underlying stream iff
`owns_underlying && underlying`.  The third component counts the
`stream_close(underlying)` calls made. -/
def compression_stream_close_impl (s : CompCloseState) (u : Underlying) :
    CompCloseState × Underlying × Nat :=
  if ¬ s.codec_state then (s, u, 0)
  else
    let s1 := { s with codec_state := false }
    if s.owns_underlying ∧ s.underlyingPresent then
      (s1, { u with closed := true }, 1)
    else
      (s1, u, 0)

/-- Close-relevant state of `struct archive_stream`. -/
structure ArchCloseState where
  archivePresent : Bool    -- `stream->archive != NULL`
  owns_underlying : Bool
  underlyingPresent : Bool
deriving DecidableEq, Repr

/-- `archive_stream_close`: returns 0 immediately if `archive` is `NULL`;
otherwise finalises the container, frees the libarchive handle (setting
`archive = NULL`) and closes the underlying stream iff
`owns_underlying && underlying` (also clearing the pointer).  The third
component counts the `stream_close(underlying)` calls made. -/
def archive_stream_close (s : ArchCloseState) (u : Underlying) :
    ArchCloseState × Underlying × Nat :=
  if ¬ s.archivePresent then (s, u, 0)
  else
    let s1 := { s with archivePresent := false }
    if s.owns_underlying ∧ s.underlyingPresent then
      ({ s1 with underlyingPresent := false }, { u with closed := true }, 1)
    else
      (s1, u, 0)

/-- C2: for both decorators (compression stream and archive stream)
wrapping a live underlying stream: the close closes the underlying stream
exactly once iff `owns_underlying` is set; with `owns_underlying = false`
the underlying stream is left untouched — still open and delivering the
same bytes — and in every case a second close of the decorator performs
no further close of the underlying stream. -/
theorem C2_close_ownership (owns : Bool) (u : Underlying) (count : Nat) :
    (compression_stream_close_impl ⟨true, owns, true⟩ u =
      (⟨false, owns, true⟩, (if owns then { u with closed := true } else u),
        if owns then 1 else 0)) ∧
    (underlyingRead (compression_stream_close_impl ⟨true, false, true⟩ u).2.1
        count = underlyingRead u count) ∧
    ((compression_stream_close_impl
        (compression_stream_close_impl ⟨true, owns, true⟩ u).1
        (compression_stream_close_impl ⟨true, owns, true⟩ u).2.1).2.2 = 0) ∧
    (archive_stream_close ⟨true, owns, true⟩ u =
      ((if owns then ⟨false, owns, false⟩ else ⟨false, owns, true⟩),
        (if owns then { u with closed := true } else u),
        if owns then 1 else 0)) ∧
    (underlyingRead (archive_stream_close ⟨true, false, true⟩ u).2.1 count =
      underlyingRead u count) ∧
    ((archive_stream_close (archive_stream_close ⟨true, owns, true⟩ u).1
        (archive_stream_close ⟨true, owns, true⟩ u).2.1).2.2 = 0) := by
  cases owns <;>
    simp [compression_stream_close_impl, archive_stream_close]

/-! ## Archive entry stream (C7)

From `struct archive_entry_stream` and `archive_entry_stream_read` /
`archive_entry_stream_close` (`walker.c:47-89`).  The libarchive data
pull `archive_read_data(archive, buf, count)` is an external collaborator:
each call is modelled by the value `nread` it returns, constrained (as
the library guarantees) to at most the requested byte count. -/

structure ArchiveEntryStream where
  bytes_read : Int
  entry_size : Int
deriving DecidableEq, Repr

/-- The clamped request the C code passes to `archive_read_data`:
`if (entry_size >= 0 && bytes_read + count > entry_size) count =
entry_size - bytes_read`. -/
def entryClamp (s : ArchiveEntryStream) (count : Nat) : Nat :=
  if 0 ≤ s.entry_size ∧ s.entry_size < s.bytes_read + count then
    (s.entry_size - s.bytes_read).toNat
  else count

/-- `archive_entry_stream_read` (`walker.c:54-70`): clamp to the entry's
declared size, return 0 without calling the library when nothing remains,
otherwise return the library's result `nread`, accounting it into
`bytes_read` when positive. -/
def archive_entry_stream_read (s : ArchiveEntryStream) (count : Nat)
    (nread : Int) : Int × ArchiveEntryStream :=
  let c := entryClamp s count
  if c = 0 then (0, s)
  else (nread, if 0 < nread then { s with bytes_read := s.bytes_read + nread }
               else s)

/-- `archive_entry_stream_close` (`walker.c:84-89`): does nothing — in
particular it never touches the parent archive handle, passed here as the
`parentOpen` flag. -/
def archive_entry_stream_close (s : ArchiveEntryStream)
    (parentOpen : Bool) : Int × Bool :=
  (0, parentOpen)

/-- A sequence of `read` calls: each element is the requested `count`
paired with the value the archive library returned for that call.
Produces the total number of bytes delivered to the caller and the final
stream state. -/
def runEntryReads (s : ArchiveEntryStream) :
    List (Nat × Int) → Int × ArchiveEntryStream
  | [] => (0, s)
  | (c, n) :: rest =>
    let r := archive_entry_stream_read s c n
    let rst := runEntryReads r.2 rest
    (max r.1 0 + rst.1, rst.2)

/-- Validity of a call sequence: the library never returns more bytes
than the (clamped) request passed to it. -/
def validEntryReads : ArchiveEntryStream → List (Nat × Int) → Bool
  | _, [] => true
  | s, (c, n) :: rest =>
    decide (n ≤ (entryClamp s c : Int)) &&
      validEntryReads (archive_entry_stream_read s c n).2 rest

lemma entry_read_zero_clamp {s : ArchiveEntryStream} {c : Nat} {n : Int}
    (hc : entryClamp s c = 0) :
    archive_entry_stream_read s c n = (0, s) := by
  simp [archive_entry_stream_read, hc]

lemma entry_read_pos {s : ArchiveEntryStream} {c : Nat} {n : Int}
    (hc : entryClamp s c ≠ 0) (hp : 0 < n) :
    archive_entry_stream_read s c n =
      (n, { s with bytes_read := s.bytes_read + n }) := by
  simp [archive_entry_stream_read, hc, hp]

lemma entry_read_nonpos {s : ArchiveEntryStream} {c : Nat} {n : Int}
    (hc : entryClamp s c ≠ 0) (hp : ¬ 0 < n) :
    archive_entry_stream_read s c n = (n, s) := by
  simp [archive_entry_stream_read, hc, hp]

lemma runEntryReads_cons (s : ArchiveEntryStream) (c : Nat) (n : Int)
    (rest : List (Nat × Int)) :
    runEntryReads s ((c, n) :: rest) =
      (max (archive_entry_stream_read s c n).1 0 +
        (runEntryReads (archive_entry_stream_read s c n).2 rest).1,
       (runEntryReads (archive_entry_stream_read s c n).2 rest).2) := rfl

lemma runEntryReads_delivered (s : ArchiveEntryStream)
    (calls : List (Nat × Int)) :
    (runEntryReads s calls).1 =
      (runEntryReads s calls).2.bytes_read - s.bytes_read := by
  induction calls generalizing s with
  | nil => simp [runEntryReads]
  | cons cn rest ih =>
    obtain ⟨c, n⟩ := cn
    rw [runEntryReads_cons]
    by_cases hc : entryClamp s c = 0
    · rw [entry_read_zero_clamp hc]
      have := ih s
      simp only at this ⊢
      omega
    · by_cases hp : 0 < n
      · rw [entry_read_pos hc hp]
        have := ih { s with bytes_read := s.bytes_read + n }
        simp only at this ⊢
        omega
      · rw [entry_read_nonpos hc hp]
        have := ih s
        simp only at this ⊢
        omega

lemma entryClamp_le {s : ArchiveEntryStream} {c : Nat}
    (h0 : 0 ≤ s.bytes_read) (h1 : s.bytes_read ≤ s.entry_size)
    (hc : entryClamp s c ≠ 0) :
    s.bytes_read + (entryClamp s c : Int) ≤ s.entry_size := by
  unfold entryClamp at hc ⊢
  split
  · next hcase => omega
  · next hcase =>
    rw [if_neg hcase] at hc
    push_neg at hcase
    omega

lemma runEntryReads_invariant (s : ArchiveEntryStream)
    (calls : List (Nat × Int)) (hv : validEntryReads s calls = true)
    (h0 : 0 ≤ s.bytes_read) (h1 : s.bytes_read ≤ s.entry_size) :
    0 ≤ (runEntryReads s calls).2.bytes_read ∧
      (runEntryReads s calls).2.bytes_read ≤ (runEntryReads s calls).2.entry_size ∧
      (runEntryReads s calls).2.entry_size = s.entry_size := by
  induction calls generalizing s with
  | nil => exact ⟨h0, h1, rfl⟩
  | cons cn rest ih =>
    obtain ⟨c, n⟩ := cn
    rw [validEntryReads, Bool.and_eq_true, decide_eq_true_eq] at hv
    obtain ⟨hn, hrest⟩ := hv
    rw [runEntryReads_cons]
    by_cases hc : entryClamp s c = 0
    · rw [entry_read_zero_clamp hc] at hrest ⊢
      exact ih s hrest h0 h1
    · have hclamp := entryClamp_le h0 h1 hc
      by_cases hp : 0 < n
      · rw [entry_read_pos hc hp] at hrest ⊢
        have := ih { s with bytes_read := s.bytes_read + n } hrest
          (by simp only; omega) (by simp only; omega)
        simpa using this
      · rw [entry_read_nonpos hc hp] at hrest ⊢
        exact ih s hrest h0 h1

/-- C7: for an archive-entry stream with declared size `S ≥ 0`: the
cumulative number of bytes delivered over any valid sequence of `read`
calls never exceeds `S`; once `S` bytes have been delivered every further
`read` returns 0 without calling the library; a library answer of 0 ("no
more data") makes `read` return 0 with the state unchanged; and `close`
on the entry wrapper returns 0 and leaves the parent archive exactly as
it was. -/
theorem C7_entry_read_clamp (S : Int) (hS : 0 ≤ S)
    (calls : List (Nat × Int)) (hv : validEntryReads ⟨0, S⟩ calls = true)
    (count : Nat) (n : Int) (t : ArchiveEntryStream) (p : Bool) :
    (runEntryReads ⟨0, S⟩ calls).1 ≤ S ∧
    (runEntryReads ⟨0, S⟩ calls).2.bytes_read ≤ S ∧
    archive_entry_stream_read ⟨S, S⟩ count n = (0, ⟨S, S⟩) ∧
    (entryClamp t count ≠ 0 →
      archive_entry_stream_read t count 0 = (0, t)) ∧
    archive_entry_stream_close t p = (0, p) := by
  have hinv := runEntryReads_invariant ⟨0, S⟩ calls hv le_rfl hS
  have hdel := runEntryReads_delivered ⟨0, S⟩ calls
  refine ⟨?_, ?_, ?_, ?_, rfl⟩
  · simp only at hdel hinv
    omega
  · simp only at hinv
    omega
  · have : entryClamp ⟨S, S⟩ count = 0 := by
      unfold entryClamp
      split
      · next hcase => simp
      · next hcase =>
        push_neg at hcase
        simp only at hcase
        omega
    simp [archive_entry_stream_read, this]
  · intro hne
    simp [archive_entry_stream_read, hne]

/-- C7, witness: the theorem at `S = 3` with two concrete calls — a first
read delivering 2 bytes and a second clamped to the single remaining
byte; EOF and close behaviour checked at concrete states. -/
theorem C7_entry_read_clamp_witness :
    (runEntryReads ⟨0, 3⟩ [(2, 2), (5, 1)]).1 ≤ 3 ∧
    (runEntryReads ⟨0, 3⟩ [(2, 2), (5, 1)]).2.bytes_read ≤ 3 ∧
    archive_entry_stream_read ⟨3, 3⟩ 4 1 = (0, ⟨3, 3⟩) ∧
    (entryClamp ⟨1, 3⟩ 4 ≠ 0 →
      archive_entry_stream_read ⟨1, 3⟩ 4 0 = (0, ⟨1, 3⟩)) ∧
    archive_entry_stream_close ⟨1, 3⟩ true = (0, true) :=
  C7_entry_read_clamp 3 (by decide) [(2, 2), (5, 1)] (by decide) 4 1 ⟨1, 3⟩
    true

/-! ## Archive write protocol (C8)

From `archive_stream_new_entry` / `archive_stream_write_data` /
`archive_stream_finish_entry` (`archive_stream.c:302-370`).  The
libarchive primitives are external collaborators; their success is an
explicit parameter, irrelevant on the error paths the claim is about
because those return before any library call. -/

/-- Protocol state of a `struct archive_stream` opened for writing. -/
structure ArchiveWriter where
  is_writing : Bool
  entry_open : Bool
  entryPresent : Bool   -- `stream->entry != NULL`
deriving DecidableEq, Repr

/-- `archive_stream_new_entry` (`archive_stream.c:302-330`). -/
def archive_stream_new_entry (s : ArchiveWriter) (pathname : String)
    (mode : Nat) (size : Int) (allocOk headerOk : Bool) :
    Int × ArchiveWriter :=
  if ¬ s.is_writing then (-EINVAL, s)
  else if s.entry_open then (-EBUSY, s)
  else if ¬ allocOk then (-ENOMEM, s)
  else if ¬ headerOk then (-Eio, s)
  else (0, { s with entry_open := true, entryPresent := true })

/-- `archive_stream_write_data` (`archive_stream.c:333-348`); `written`
is the count libarchive reports on success. -/
def archive_stream_write_data (s : ArchiveWriter) (count : Nat)
    (libOk : Bool) (written : Nat) : Int × ArchiveWriter :=
  if ¬ s.is_writing then (-EINVAL, s)
  else if ¬ s.entry_open then (-EINVAL, s)
  else if ¬ libOk then (-Eio, s)
  else ((written : Int), s)

/-- `archive_stream_finish_entry` (`archive_stream.c:351-370`). -/
def archive_stream_finish_entry (s : ArchiveWriter) (finOk : Bool) :
    Int × ArchiveWriter :=
  if ¬ s.is_writing then (-EINVAL, s)
  else if ¬ s.entry_open then (-EINVAL, s)
  else if ¬ finOk then (-Eio, s)
  else (0, { s with entry_open := false, entryPresent := false })

/-- C8: on an archive stream opened for writing, `new_entry` while a
previous entry is still open returns `-EBUSY`; `write_data` and
`finish_entry` with no open entry return `-EINVAL`; in each error case
the archive state (open-entry flag, current entry) is returned exactly
unchanged, whatever the archive library would have done. -/
theorem C8_write_protocol (ep ep' : Bool) (pathname : String) (mode : Nat)
    (size : Int) (allocOk headerOk libOk finOk : Bool) (count written : Nat) :
    archive_stream_new_entry ⟨true, true, ep⟩ pathname mode size allocOk
      headerOk = (-EBUSY, ⟨true, true, ep⟩) ∧
    archive_stream_write_data ⟨true, false, ep'⟩ count libOk written =
      (-EINVAL, ⟨true, false, ep'⟩) ∧
    archive_stream_finish_entry ⟨true, false, ep'⟩ finOk =
      (-EINVAL, ⟨true, false, ep'⟩) := by
  refine ⟨?_, ?_, ?_⟩ <;>
    simp [archive_stream_new_entry, archive_stream_write_data,
      archive_stream_finish_entry]

/-! ## Compression read path and emulated mmap (C4, C9)

From `compression_stream_read_impl` (`compression_stream.c:293-494`) and
`compression_stream_mmap_impl` (`compression_stream.c:637-672`).

The codec (zlib et al.) is an external collaborator.  It is modelled by
the full decompressed content `D` of the source together with a cursor
`dpos` recording how much of it the codec has produced so far; a refill
(the codec loop of `read_impl`) produces the next
`min(16384, remaining)` bytes — the loop keeps feeding input until the
16 KiB output buffer fills or the codec reports end of frame, and the
codec is taken as maximally productive.  The codec reports end of frame
(`Z_STREAM_END` / its analogues), setting `at_eof`, within the refill
that produces the last byte of `D`; a refill that finds no output at all
(underlying stream exhausted) also sets `at_eof`. -/

def BLOCK : Nat := 16384

/-- Read-side state of `struct compression_stream`: EOF flag, the output
buffer (`outbuf[0..outbuf_used)`) with its read position, and the codec
cursor into the decompressed content. -/
structure CompReadState where
  at_eof : Bool
  outbuf : List Nat
  outbuf_pos : Nat
  dpos : Nat
deriving DecidableEq, Repr

/-- A freshly initialised read-mode compression stream
(`compression_stream_init`: `at_eof = 0`, `outbuf_used = 0`,
`outbuf_pos = 0`). -/
def freshComp : CompReadState := ⟨false, [], 0, 0⟩

/-- `compression_stream_read_impl` over decompressed content `D`.
Returns the bytes delivered, the new state, and the number of refills
performed (each refill reads compressed input from the underlying stream
and runs the codec; 0 means the underlying stream and codec were not
touched). -/
def compressionRead (D : List Nat) (s : CompReadState) (count : Nat) :
    List Nat × CompReadState × Nat :=
  if s.at_eof then ([], s, 0)
  else if s.outbuf_pos < s.outbuf.length then
    -- return buffered data first
    ((s.outbuf.drop s.outbuf_pos).take
        (min count (s.outbuf.length - s.outbuf_pos)),
      { s with outbuf_pos :=
          s.outbuf_pos + min count (s.outbuf.length - s.outbuf_pos) }, 0)
  else if ((D.drop s.dpos).take BLOCK).length = 0 then
    -- refill found no output: the codec reports end of frame / the
    -- underlying stream is exhausted; outbuf_used == 0 → return 0
    ([], { at_eof := true, outbuf := [], outbuf_pos := 0, dpos := s.dpos }, 1)
  else
    -- refill: decompress the next block into outbuf, serve min(count,
    -- outbuf_used) of it; end of frame within this refill sets at_eof
    (((D.drop s.dpos).take BLOCK).take
        (min count ((D.drop s.dpos).take BLOCK).length),
      { at_eof := decide (s.dpos + ((D.drop s.dpos).take BLOCK).length =
          D.length),
        outbuf := (D.drop s.dpos).take BLOCK,
        outbuf_pos := min count ((D.drop s.dpos).take BLOCK).length,
        dpos := s.dpos + ((D.drop s.dpos).take BLOCK).length }, 1)

/-- `compression_stream_mmap_impl` (`compression_stream.c:637-672`) in
read mode with the allocation succeeding: a single
`stream_read(&stream->base, buffer, length)` call; whatever it delivers
becomes the emulated mapping (`emulated_mmap_size = nread`; a short read
is accepted). -/
def compressionMmap (D : List Nat) (s : CompReadState) (length : Nat) :
    List Nat × CompReadState :=
  ((compressionRead D s length).1, (compressionRead D s length).2.1)

/-- Reading `n` bytes directly by repeated `read` calls, as a caller
would; stops when `n` bytes have accumulated or a call returns no bytes.
`fuel` bounds the number of calls. -/
def readFully (D : List Nat) (s : CompReadState) (n : Nat) :
    Nat → List Nat × CompReadState
  | 0 => ([], s)
  | fuel + 1 =>
    if n = 0 then ([], s)
    else if (compressionRead D s n).1.length = 0 then
      ([], (compressionRead D s n).2.1)
    else
      ((compressionRead D s n).1 ++
        (readFully D (compressionRead D s n).2.1
          (n - (compressionRead D s n).1.length) fuel).1,
       (readFully D (compressionRead D s n).2.1
          (n - (compressionRead D s n).1.length) fuel).2)

/-- Iterating the state transition of `read` with a fixed request. -/
def readStateIter (D : List Nat) (count : Nat) :
    Nat → CompReadState → CompReadState
  | 0, s => s
  | k + 1, s => readStateIter D count k (compressionRead D s count).2.1

/-- C9: once a read has set the compression stream's EOF flag, every
subsequent `read` returns 0 bytes, leaves the state unchanged, and
performs no refill — no read of the underlying stream and no codec
work.  EOF is sticky: iterating `read` any number of times from an EOF
state stays in exactly that state. -/
theorem C9_sticky_eof (D : List Nat) (s : CompReadState)
    (h : s.at_eof = true) (count k : Nat) :
    compressionRead D s count = ([], s, 0) ∧
    readStateIter D count k s = s := by
  have h1 : compressionRead D s count = ([], s, 0) := by
    unfold compressionRead
    rw [if_pos h]
  refine ⟨h1, ?_⟩
  induction k with
  | zero => rfl
  | succ k ih =>
    rw [readStateIter, h1]
    exact ih

/-- C9, witness: the theorem at a concrete EOF state. -/
theorem C9_sticky_eof_witness :
    compressionRead [1, 2, 3] ⟨true, [9, 9], 1, 1⟩ 4 =
      ([], ⟨true, [9, 9], 1, 1⟩, 0) ∧
    readStateIter [1, 2, 3] 4 3 ⟨true, [9, 9], 1, 1⟩ = ⟨true, [9, 9], 1, 1⟩ :=
  C9_sticky_eof [1, 2, 3] ⟨true, [9, 9], 1, 1⟩ rfl 4 3

/-! ### C4: `mmap` delivers at most one 16 KiB block

`compression_stream_mmap_impl` performs a *single* `stream_read`, and a
single `compression_stream_read_impl` call never delivers more than one
output block (16384 bytes); the code's comment "If we read less than
requested, that's OK (EOF)" takes a short read for end of stream, which
is wrong whenever more than one block of decompressed data exists. -/

lemma fresh_read_big (D : List Nat) (count : Nat) (hc : BLOCK ≤ count)
    (hD : BLOCK < D.length) :
    compressionRead D freshComp count =
      (D.take BLOCK, ⟨false, D.take BLOCK, BLOCK, BLOCK⟩, 1) := by
  have hlen : ((D.drop 0).take BLOCK).length = BLOCK := by
    simp [List.length_take]
    omega
  unfold compressionRead freshComp
  simp only [List.drop_zero] at hlen ⊢
  rw [if_neg (by simp), if_neg (by simp),
    if_neg (by rw [hlen]; norm_num [BLOCK])]
  simp only [hlen]
  have hmin : min count BLOCK = BLOCK := min_eq_right hc
  simp only [hmin]
  simp only [Nat.zero_add]
  have hdec : decide (BLOCK = D.length) = false := by
    simp only [decide_eq_false_iff_not]
    omega
  simp only [hdec]
  rw [List.take_take, min_self]

lemma second_read_final (D : List Nat) (count : Nat)
    (hD : BLOCK < D.length) (hsmall : D.length ≤ BLOCK + BLOCK)
    (hcount : D.length - BLOCK ≤ count) :
    compressionRead D ⟨false, D.take BLOCK, BLOCK, BLOCK⟩ count =
      (D.drop BLOCK, ⟨true, D.drop BLOCK, D.length - BLOCK, D.length⟩, 1) := by
  have hlt : (D.drop BLOCK).length = D.length - BLOCK := by
    simp [List.length_drop]
  have htake : (D.drop BLOCK).take BLOCK = D.drop BLOCK := by
    apply List.take_of_length_le
    omega
  unfold compressionRead
  rw [if_neg (by simp)]
  rw [if_neg (by simp [List.length_take])]
  simp only [htake, hlt]
  rw [if_neg (by omega)]
  have hmin : min count (D.length - BLOCK) = D.length - BLOCK :=
    min_eq_right hcount
  simp only [hmin]
  have heof : decide (BLOCK + (D.length - BLOCK) = D.length) = true := by
    simp only [decide_eq_true_eq]
    omega
  simp only [heof]
  have htk : (D.drop BLOCK).take (D.length - BLOCK) = D.drop BLOCK := by
    apply List.take_of_length_le
    omega
  have hadd : BLOCK + (D.length - BLOCK) = D.length := by omega
  rw [htk, hadd]

lemma readFully_all (D : List Nat) (hD : BLOCK < D.length)
    (hsmall : D.length ≤ BLOCK + BLOCK) :
    (readFully D freshComp D.length 3).1 = D := by
  have hlen : (D.take BLOCK).length = BLOCK := by
    simp [List.length_take]
    omega
  have hdlen : (D.drop BLOCK).length = D.length - BLOCK := by
    simp [List.length_drop]
  unfold readFully
  rw [if_neg (by omega)]
  rw [fresh_read_big D D.length (by omega) hD]
  simp only [hlen]
  rw [if_neg (by norm_num [BLOCK])]
  unfold readFully
  rw [if_neg (by omega)]
  rw [second_read_final D (D.length - BLOCK) hD hsmall le_rfl]
  simp only [hdlen]
  rw [if_neg (by omega)]
  unfold readFully
  rw [if_pos (by omega)]
  simp [List.take_append_drop]

/-- C4, evaluation at the failing input: for a gzip source whose
decompressed content is 16385 bytes (one byte more than the 16 KiB
block), `mmap` of range `[0, 16385)` on a fresh compression stream
returns a buffer of only 16384 bytes — not the requested first 16385
decompressed bytes, which direct reading of 16385 bytes from an
identically opened stream does deliver. -/
theorem C4_mmap_truncation :
    (compressionMmap (List.replicate 16385 7) freshComp 16385).1.length =
      16384 ∧
    (readFully (List.replicate 16385 7) freshComp 16385 3).1 =
      List.replicate 16385 7 ∧
    ((List.replicate 16385 (7 : Nat)).take 16385).length = 16385 ∧
    (compressionMmap (List.replicate 16385 7) freshComp 16385).1 ≠
      (List.replicate 16385 7).take 16385 := by
  have hlen : (List.replicate 16385 (7 : Nat)).length = 16385 :=
    List.length_replicate ..
  have hread := fresh_read_big (List.replicate 16385 7) 16385
    (by norm_num [BLOCK]) (by rw [hlen]; norm_num [BLOCK])
  have hmlen : (compressionMmap (List.replicate 16385 7) freshComp
      16385).1.length = 16384 := by
    unfold compressionMmap
    rw [hread]
    simp only [List.length_take, hlen]
    norm_num [BLOCK]
  have hfull := readFully_all (List.replicate 16385 7)
    (by rw [hlen]; norm_num [BLOCK]) (by rw [hlen]; norm_num [BLOCK])
  rw [hlen] at hfull
  have htlen : ((List.replicate 16385 (7 : Nat)).take 16385).length =
      16385 := by
    simp only [List.length_take, hlen]
    norm_num
  refine ⟨hmlen, hfull, htlen, fun h => ?_⟩
  have := congrArg List.length h
  rw [hmlen, htlen] at this
  norm_num at this

/-! ## `stream_auto_decompress` and the replay wrapper (C6, C10)

From `stream_auto_decompress` (`stream.c:416-509`),
`struct prefetch_stream_internal` and `prefetch_read_internal`
(`stream.c:320-356`).  The environment record makes the external
conditions the function branches on explicit: `NULL` arguments, stream
seekability, a failing `stream_read`, a failing `stream_seek`, a failing
`malloc` of the prefetch struct, and a failing codec initialisation. -/

/-- The up-to-16 magic bytes `stream_read(source, magic, sizeof(magic))`
delivers from the current position. -/
def magicOf (src : ByteSource) : List Nat :=
  (src.data.drop src.pos).take 16

/-- The source after that detection read. -/
def afterMagic (src : ByteSource) : ByteSource :=
  { src with pos := src.pos + (magicOf src).length }

/-- `struct prefetch_stream_internal` (`stream.c:320-328`): the
already-consumed magic bytes with a replay position, the underlying
stream, the ownership flag, and the running total. -/
structure PrefetchStream where
  buffer : List Nat
  buffer_pos : Nat
  underlying : ByteSource
  owns_underlying : Bool
  total_read : Nat
deriving DecidableEq, Repr

/-- The byte sequence a reader of the prefetch stream has yet to see:
first the unreplayed buffered bytes, then the rest of the underlying
stream. -/
def prefetchRemaining (p : PrefetchStream) : List Nat :=
  p.buffer.drop p.buffer_pos ++ p.underlying.data.drop p.underlying.pos

/-- `prefetch_read_internal` (`stream.c:330-356`): serve bytes from the
buffer first, then read the remainder of the request from the underlying
stream (modelled error-free, as the claims address well-behaved
sources). -/
def prefetch_read_internal (p : PrefetchStream) (count : Nat) :
    List Nat × PrefetchStream :=
  ((p.buffer.drop p.buffer_pos).take
      (min count (p.buffer.length - p.buffer_pos)) ++
    (p.underlying.data.drop p.underlying.pos).take
      (count - min count (p.buffer.length - p.buffer_pos)),
   { p with
       buffer_pos := p.buffer_pos +
         min count (p.buffer.length - p.buffer_pos),
       underlying := { p.underlying with pos := p.underlying.pos +
         ((p.underlying.data.drop p.underlying.pos).take
            (count - min count (p.buffer.length - p.buffer_pos))).length },
       total_read := p.total_read +
         (min count (p.buffer.length - p.buffer_pos) +
           ((p.underlying.data.drop p.underlying.pos).take
              (count - min count (p.buffer.length - p.buffer_pos))).length) })

/-- The stream `stream_auto_decompress` hands back. -/
inductive ADStream where
  | source                                            -- the source itself
  | codecSeekable (t : CompressionType)               -- codec over source
  | replayWrapper (p : PrefetchStream)                -- the prefetch stream
  | codecOverReplay (t : CompressionType) (p : PrefetchStream)
      -- codec whose input is the prefetch stream (which it owns)
deriving DecidableEq, Repr

/-- `ADStream.replayWrapper` discriminator. -/
def isReplayWrapper : ADStream → Bool
  | .replayWrapper _ => true
  | _ => false

/-- Environment of a `stream_auto_decompress` call. -/
structure ADEnv where
  srcNull : Bool       -- `source == NULL`
  storageNull : Bool   -- `cs_storage == NULL`
  canSeek : Bool       -- `stream_can_seek(source)`
  readErr : Option Int -- `some e`: `stream_read` fails with `e < 0`
  seekOk : Bool        -- `stream_seek(source, 0, SEEK_SET)` succeeds
  allocOk : Bool       -- `malloc` of the prefetch struct succeeds
  initOk : Bool        -- `compression_stream_init` succeeds
deriving DecidableEq, Repr

/-- `compression_stream_auto` with its environment made explicit (read
failure propagated, `stream_seek(.., 0, SEEK_SET)` failure → `-Eio`,
codec initialisation failure → `-Eio`), as `stream_auto_decompress`
invokes it on the seekable path. -/
def compressionAutoE (readErr : Option Int) (seekOk initOk : Bool)
    (u : ByteSource) : Except Int CompressionType × ByteSource :=
  match readErr with
  | some e => (.error e, u)
  | none =>
    if ¬ seekOk then (.error (-Eio), afterMagic u)
    else
      match detectMagic (magicOf u) with
      | none => (.error (-EINVAL), { data := u.data, pos := 0 })
      | some t =>
        if initOk then (.ok t, { data := u.data, pos := 0 })
        else (.error (-Eio), { data := u.data, pos := 0 })

/-- The buffered-detection block of `stream_auto_decompress`
(`stream.c:441-505`): read the magic bytes once; with no data (or a read
failure) return the source itself; otherwise build the prefetch stream
over the consumed bytes and either hand it to the codec (signature
detected, init succeeds), return it as the replay stream (no signature),
or fall back to the source (allocation or codec init failure). -/
def bufferedDetect (readErr : Option Int) (allocOk initOk : Bool)
    (src : ByteSource) (owns : Bool) : Option ADStream × ByteSource :=
  match readErr with
  | some _ => (some .source, src)
  | none =>
    if (magicOf src).length = 0 then (some .source, src)
    else if ¬ allocOk then (some .source, afterMagic src)
    else
      match detectMagic (magicOf src) with
      | some t =>
        if initOk then
          (some (.codecOverReplay t
            ⟨magicOf src, 0, afterMagic src, owns, 0⟩), afterMagic src)
        else (some .source, afterMagic src)
      | none =>
        (some (.replayWrapper ⟨magicOf src, 0, afterMagic src, owns, 0⟩),
          afterMagic src)

/-- `stream_auto_decompress` (`stream.c:416-509`): `NULL` checks, then
the seekable fast path (attaching the codec directly to the source, or
returning the source on `-EINVAL`), falling through to buffered
detection on any other failure and for non-seekable sources. -/
def stream_auto_decompress (env : ADEnv) (src : ByteSource) (owns : Bool) :
    Option ADStream × ByteSource :=
  if env.srcNull ∨ env.storageNull then (none, src)
  else if env.canSeek then
    match compressionAutoE env.readErr env.seekOk env.initOk src with
    | (.ok t, u) => (some (.codecSeekable t), u)
    | (.error e, u) =>
      if e = -EINVAL then (some .source, u)
      else bufferedDetect env.readErr env.allocOk env.initOk u owns
  else bufferedDetect env.readErr env.allocOk env.initOk src owns

/-- The environment of a well-behaved non-seekable readable source. -/
def nonSeekEnv : ADEnv := ⟨false, false, false, none, true, true, true⟩

lemma take_len_drop (l : List Nat) (n : Nat) :
    l.take n ++ l.drop ((l.take n).length) = l := by
  rw [List.length_take]
  rcases le_total n l.length with h | h
  · rw [min_eq_left h, List.take_append_drop]
  · rw [min_eq_right h, List.drop_length, List.append_nil,
      List.take_of_length_le h]

lemma prefetch_read_exhaust (p : PrefetchStream) (c : Nat)
    (hc : (prefetchRemaining p).length ≤ c) :
    (prefetch_read_internal p c).1 = prefetchRemaining p ∧
    (prefetch_read_internal (prefetch_read_internal p c).2 c).1 = [] := by
  have hlb : (p.buffer.drop p.buffer_pos).length =
      p.buffer.length - p.buffer_pos := List.length_drop ..
  have hlu : (p.underlying.data.drop p.underlying.pos).length =
      p.underlying.data.length - p.underlying.pos := List.length_drop ..
  rw [prefetchRemaining, List.length_append, hlb, hlu] at hc
  have hmin : min c (p.buffer.length - p.buffer_pos) =
      p.buffer.length - p.buffer_pos := min_eq_right (by omega)
  constructor
  · rw [prefetch_read_internal, prefetchRemaining, hmin]
    rw [List.take_of_length_le (le_of_eq hlb),
      List.take_of_length_le (by rw [hlu]; omega)]
  · rw [prefetch_read_internal, prefetch_read_internal]
    simp only
    rw [hmin]
    have h1 : p.buffer.length - (p.buffer_pos +
        (p.buffer.length - p.buffer_pos)) = 0 := by omega
    rw [h1]
    simp only [Nat.min_zero, List.take_zero, List.nil_append,
      Nat.sub_zero]
    have h2 : ((p.underlying.data.drop p.underlying.pos).take
        (c - (p.buffer.length - p.buffer_pos))).length =
        p.underlying.data.length - p.underlying.pos := by
      rw [List.length_take, hlu]
      omega
    rw [h2]
    have h3 : p.underlying.data.drop (p.underlying.pos +
        (p.underlying.data.length - p.underlying.pos)) = [] := by
      apply List.drop_eq_nil_of_le
      omega
    rw [h3]
    exact List.take_nil

/-- C6, counterexample: a readable, non-seekable source with no bytes to
deliver.  The detection read returns 0, so `stream_auto_decompress`
returns the source stream itself — not a replay (prefetch) wrapper as
the claim states for every no-signature case. -/
theorem C6_counterexample :
    (stream_auto_decompress nonSeekEnv ⟨[], 0⟩ false).1 =
      some ADStream.source ∧
    Option.map isReplayWrapper
      (stream_auto_decompress nonSeekEnv ⟨[], 0⟩ false).1 = some false := by
  refine ⟨rfl, rfl⟩

/-- C6, amended: for every readable non-seekable source, detection reads
the magic bytes exactly once (the source advances by exactly the one
probe's bytes).  If the probe returned data and no signature matched,
the result is the replay (prefetch) wrapper, whose remaining byte
sequence is exactly the source's sequence from its pre-detection
position — the consumed magic bytes, then the rest; reading the wrapper
to exhaustion delivers exactly that sequence.  If a signature matched,
the codec's input is the replay wrapper, not the original stream.  If
the probe returned no data, the source itself is returned (there is
nothing to replay). -/
theorem C6_nonseekable_replay (data : List Nat) (pos : Nat) (owns : Bool) :
    ((stream_auto_decompress nonSeekEnv ⟨data, pos⟩ owns).2 =
      afterMagic ⟨data, pos⟩) ∧
    (magicOf ⟨data, pos⟩ ≠ [] → detectMagic (magicOf ⟨data, pos⟩) = none →
      (stream_auto_decompress nonSeekEnv ⟨data, pos⟩ owns).1 =
        some (.replayWrapper
          ⟨magicOf ⟨data, pos⟩, 0, afterMagic ⟨data, pos⟩, owns, 0⟩) ∧
      prefetchRemaining
          ⟨magicOf ⟨data, pos⟩, 0, afterMagic ⟨data, pos⟩, owns, 0⟩ =
        data.drop pos) ∧
    (∀ t, detectMagic (magicOf ⟨data, pos⟩) = some t →
      (stream_auto_decompress nonSeekEnv ⟨data, pos⟩ owns).1 =
        some (.codecOverReplay t
          ⟨magicOf ⟨data, pos⟩, 0, afterMagic ⟨data, pos⟩, owns, 0⟩)) ∧
    (magicOf ⟨data, pos⟩ = [] →
      (stream_auto_decompress nonSeekEnv ⟨data, pos⟩ owns).1 =
        some .source) ∧
    (∀ (p : PrefetchStream) (c : Nat), (prefetchRemaining p).length ≤ c →
      (prefetch_read_internal p c).1 = prefetchRemaining p ∧
      (prefetch_read_internal (prefetch_read_internal p c).2 c).1 = []) := by
  have hrem : prefetchRemaining
      ⟨magicOf ⟨data, pos⟩, 0, afterMagic ⟨data, pos⟩, owns, 0⟩ =
      data.drop pos := by
    rw [prefetchRemaining]
    simp only [afterMagic, List.drop_zero]
    rw [magicOf]
    simp only
    rw [← List.drop_drop, take_len_drop]
  have hsad : stream_auto_decompress nonSeekEnv ⟨data, pos⟩ owns =
      bufferedDetect none true true ⟨data, pos⟩ owns := by
    rw [stream_auto_decompress]
    rfl
  refine ⟨?_, fun hne hdet => ⟨?_, hrem⟩, fun t hdet => ?_, fun hemp => ?_,
    prefetch_read_exhaust⟩
  · rw [hsad, bufferedDetect]
    by_cases hemp : (magicOf ⟨data, pos⟩).length = 0
    · rw [if_pos hemp]
      simp only [afterMagic, hemp]
      rfl
    · rw [if_neg hemp, if_neg (by simp)]
      cases hdet : detectMagic (magicOf ⟨data, pos⟩) with
      | none => rfl
      | some t => rfl
  · rw [hsad, bufferedDetect]
    rw [if_neg (by simpa using hne), if_neg (by simp), hdet]
  · rw [hsad, bufferedDetect]
    have hne : ¬ (magicOf ⟨data, pos⟩).length = 0 := by
      intro h
      rw [List.length_eq_zero] at h
      rw [h] at hdet
      simp [detectMagic] at hdet
    rw [if_neg hne, if_neg (by simp), hdet]
    rfl
  · rw [hsad, bufferedDetect]
    rw [if_pos (by simpa using hemp)]

/-- C6, witness: the amended theorem at the concrete non-seekable source
`[1, 2, 3]` (no compression signature): the replay wrapper is returned
and replays exactly `[1, 2, 3]`. -/
theorem C6_nonseekable_replay_witness :
    (stream_auto_decompress nonSeekEnv ⟨[1, 2, 3], 0⟩ false).1 =
      some (.replayWrapper
        ⟨magicOf ⟨[1, 2, 3], 0⟩, 0, afterMagic ⟨[1, 2, 3], 0⟩, false, 0⟩) ∧
    prefetchRemaining
        ⟨magicOf ⟨[1, 2, 3], 0⟩, 0, afterMagic ⟨[1, 2, 3], 0⟩, false, 0⟩ =
      [1, 2, 3] :=
  (C6_nonseekable_replay [1, 2, 3] 0 false).2.1 (by decide) (by decide)

/-- C10: `stream_auto_decompress` returns `NULL` exactly when `source`
or `cs_storage` is `NULL`; whatever else the environment does — failing
detection read, failing seek, failing prefetch allocation, failing codec
initialisation — a non-`NULL` stream is returned.  Moreover the listed
internal failure paths fall back to the source stream itself: a failing
detection read always yields the source; on a non-seekable source a
failing allocation yields the source, and a failing codec initialisation
after a detected signature yields the source. -/
lemma bufferedDetect_ne_none (re : Option Int) (al io : Bool)
    (src : ByteSource) (owns : Bool) :
    (bufferedDetect re al io src owns).1 ≠ none := by
  cases re with
  | some e =>
    rw [bufferedDetect]
    simp
  | none =>
    rw [bufferedDetect]
    by_cases h0 : (magicOf src).length = 0
    · rw [if_pos h0]
      simp
    · rw [if_neg h0]
      cases al with
      | false =>
        rw [if_pos (by simp)]
        simp
      | true =>
        rw [if_neg (by simp)]
        cases hdet : detectMagic (magicOf src) with
        | some t => cases io <;> simp
        | none => simp

lemma sad_ne_none (env : ADEnv) (src : ByteSource) (owns : Bool)
    (h1 : env.srcNull = false) (h2 : env.storageNull = false) :
    (stream_auto_decompress env src owns).1 ≠ none := by
  rw [stream_auto_decompress, if_neg (by simp [h1, h2])]
  by_cases hcs : env.canSeek
  · rw [if_pos hcs]
    rcases hE : compressionAutoE env.readErr env.seekOk env.initOk src
      with ⟨r, u⟩
    cases r with
    | ok t => simp
    | error e =>
      simp only
      by_cases he : e = -EINVAL
      · rw [if_pos he]
        simp
      · rw [if_neg he]
        exact bufferedDetect_ne_none env.readErr env.allocOk env.initOk u owns
  · rw [if_neg hcs]
    exact bufferedDetect_ne_none env.readErr env.allocOk env.initOk src owns

/-- C10: `stream_auto_decompress` returns `NULL` exactly when `source`
or `cs_storage` is `NULL`; whatever else the environment does — failing
detection read, failing seek, failing prefetch allocation, failing codec
initialisation — a non-`NULL` stream is returned.  Moreover the listed
internal failure paths fall back to the source stream itself: a failing
detection read always yields the source; on a non-seekable source a
failing allocation yields the source, and a failing codec initialisation
after a detected signature yields the source. -/
theorem C10_never_null (env : ADEnv) (src : ByteSource) (owns : Bool)
    (t : CompressionType) :
    ((stream_auto_decompress env src owns).1 = none ↔
      (env.srcNull = true ∨ env.storageNull = true)) ∧
    (env.srcNull = false → env.storageNull = false →
      ∀ e, env.readErr = some e →
        (stream_auto_decompress env src owns).1 = some .source) ∧
    (env.srcNull = false → env.storageNull = false → env.canSeek = false →
      env.allocOk = false →
      (stream_auto_decompress env src owns).1 = some .source) ∧
    (env.srcNull = false → env.storageNull = false → env.canSeek = false →
      env.readErr = none → env.initOk = false →
      detectMagic (magicOf src) = some t →
      (stream_auto_decompress env src owns).1 = some .source) := by
  refine ⟨⟨fun h => ?_, fun h => ?_⟩, fun h1 h2 e hre => ?_,
    fun h1 h2 h3 h4 => ?_, fun h1 h2 h3 h4 h5 h6 => ?_⟩
  · by_contra hn
    push_neg at hn
    exact sad_ne_none env src owns
      (by cases henv : env.srcNull
          · rfl
          · exact absurd henv hn.1)
      (by cases henv : env.storageNull
          · rfl
          · exact absurd henv hn.2) h
  · rw [stream_auto_decompress,
      if_pos (by rcases h with h | h <;> simp [h])]
  · rw [stream_auto_decompress, if_neg (by simp [h1, h2])]
    by_cases hcs : env.canSeek
    · rw [if_pos hcs]
      rw [hre, compressionAutoE]
      simp only
      by_cases he : e = -EINVAL
      · rw [if_pos he]
      · rw [if_neg he, bufferedDetect]
    · rw [if_neg hcs, hre, bufferedDetect]
  · rw [stream_auto_decompress, if_neg (by simp [h1, h2]),
      if_neg (by simp [h3])]
    cases hre : env.readErr with
    | some e => rw [bufferedDetect]
    | none =>
      rw [bufferedDetect]
      by_cases h0 : (magicOf src).length = 0
      · rw [if_pos h0]
      · rw [if_neg h0, if_pos (by simp [h4])]
  · rw [stream_auto_decompress, if_neg (by simp [h1, h2]),
      if_neg (by simp [h3]), h4, bufferedDetect]
    have h0 : ¬ (magicOf src).length = 0 := by
      intro h0
      rw [List.length_eq_zero] at h0
      rw [h0] at h6
      simp [detectMagic] at h6
    rw [if_neg h0]
    by_cases hal : env.allocOk
    · rw [if_neg (by simp [hal]), h6]
      simp [h5]
    · rw [if_pos (by simp [hal])]

/-- C10, witness: the theorem's conditional parts at concrete
environments — a failing detection read, a failing allocation, and a
failing gzip initialisation on a gzip-signature source all yield the
source stream itself, and with non-`NULL` arguments the result is never
`NULL`. -/
theorem C10_never_null_witness :
    ¬ ((stream_auto_decompress ⟨false, false, true, none, true, true, true⟩
        ⟨[0x1f, 0x8b, 8], 0⟩ true).1 = none) ∧
    (stream_auto_decompress ⟨false, false, false, some (-Eio), true, true,
        true⟩ ⟨[1, 2], 0⟩ true).1 = some .source ∧
    (stream_auto_decompress ⟨false, false, false, none, true, false, true⟩
        ⟨[1, 2], 0⟩ true).1 = some .source ∧
    (stream_auto_decompress ⟨false, false, false, none, true, true, false⟩
        ⟨[0x1f, 0x8b, 8], 0⟩ true).1 = some .source :=
  ⟨fun h => by
      have := ((C10_never_null ⟨false, false, true, none, true, true, true⟩
        ⟨[0x1f, 0x8b, 8], 0⟩ true .gzip).1).1 h
      simp at this,
   (C10_never_null ⟨false, false, false, some (-Eio), true, true, true⟩
      ⟨[1, 2], 0⟩ true .gzip).2.1 rfl rfl (-Eio) rfl,
   (C10_never_null ⟨false, false, false, none, true, false, true⟩
      ⟨[1, 2], 0⟩ true .gzip).2.2.1 rfl rfl rfl rfl,
   (C10_never_null ⟨false, false, false, none, true, true, false⟩
      ⟨[0x1f, 0x8b, 8], 0⟩ true .gzip).2.2.2 rfl rfl rfl rfl rfl
      (by decide)⟩

/-! ## The recursive walker (C3, C5)

From `walker.c` (`walk_file` 119-203, `walk_directory` 206-299 POSIX,
`walk_archive` 352-464, `walk_path` 468-493), with `HAVE_LIBARCHIVE` and
`HAVE_COMPRESSION` defined and a well-behaved environment: `stat`,
`opendir`, `file_stream_open` and allocations succeed, and no symlinks
occur (the model's trees have none).

The traversal is modelled as a trace of events: callback invocations
(carrying the node kind and the callback's return value, which the model
attaches to each node), and the allocation (`openR`) / release
(`closeR`) of every closeable resource — file streams, prefetch
structs, codec states, libarchive handles — numbered by a counter.  The
per-entry `struct archive_entry_stream` holds no resource and its close
is a no-op (`walker.c:84-89`); its construction is recorded as the
distinct event `aesInit`.  A stream value is the list of resource ids a
`stream_close` on it releases (its own, plus — transitively — those of
underlying streams it owns). -/

structure WalkFlags where
  recurse : Bool          -- WALK_RECURSE_DIRS
  expandArchives : Bool   -- WALK_EXPAND_ARCHIVES
  decompress : Bool       -- WALK_DECOMPRESS
  filterFiles : Bool      -- WALK_FILTER_FILES (only report regular files)
  filterDirs : Bool       -- WALK_FILTER_DIRS (only report directories)
deriving DecidableEq, Repr

/-- One entry of an archive, carrying the callback's return value for
it, whether its payload carries a compression signature, and whether its
payload is non-empty (the detection read finds bytes). -/
structure AEntry where
  isDir : Bool
  ret : Int
  compressed : Bool
  nonempty : Bool
deriving DecidableEq, Repr

/-- A regular file: the callback's return value, whether its content
carries a compression signature, and — when it is an openable archive —
its entries. -/
structure FileInfo where
  ret : Int
  compressed : Bool
  archive : Option (List AEntry)
deriving DecidableEq, Repr

inductive FSNode where
  | file (fi : FileInfo)
  | dir (ret : Int) (children : List FSNode)
deriving Repr

/-- Trace events. `cb isArchiveEntry isDir r`: the callback ran and
returned `r`. -/
inductive WEvent where
  | cb (isArchiveEntry : Bool) (isDir : Bool) (r : Int)
  | openR (id : Nat)
  | closeR (id : Nat)
  | aesInit
deriving DecidableEq, Repr

/-- A stream value: the resource ids one `stream_close` on it releases. -/
structure MStream where
  ids : List Nat
deriving DecidableEq, Repr

/-- `stream_close(s)` events. -/
def closeEvs (s : MStream) : List WEvent :=
  s.ids.map WEvent.closeR

/-- `stream_auto_decompress` over a seekable source (walker file
streams), at the resource level: a codec wrapper (one resource) is
created iff the content carries a signature; otherwise the source itself
comes back.  The wrapper releases the source's resources iff it owns
them. -/
def sadSeekable (compressed : Bool) (src : MStream) (owns : Bool)
    (c : Nat) : List WEvent × MStream × Nat :=
  if compressed then
    ([.openR c], ⟨c :: (if owns then src.ids else [])⟩, c + 1)
  else ([], src, c)

/-- `stream_auto_decompress` over a non-seekable archive-entry stream
(`owns_source = 0` in the walker): nothing to read → the entry stream
itself; a signature → prefetch struct plus codec, the codec owning the
prefetch (which does not own the entry stream); no signature → the
prefetch replay stream. -/
def sadEntry (compressed nonempty : Bool) (c : Nat) :
    List WEvent × MStream × Nat :=
  if ¬ nonempty then ([], ⟨[]⟩, c)
  else if compressed then
    ([.openR c, .openR (c + 1)], ⟨[c + 1, c]⟩, c + 2)
  else ([.openR c], ⟨[c]⟩, c + 1)

/-- Construction of the per-entry stream in `walk_archive`
(`walker.c:405-422`): directories get no stream; regular files get the
`archive_entry_stream` (`aesInit`), wrapped by `stream_auto_decompress`
when `WALK_DECOMPRESS` is set. -/
def entryStreamBuild (e : AEntry) (flags : WalkFlags) (c : Nat) :
    List WEvent × MStream × Nat :=
  if e.isDir then ([], ⟨[]⟩, c)
  else if flags.decompress then
    (WEvent.aesInit :: (sadEntry e.compressed e.nonempty c).1,
      (sadEntry e.compressed e.nonempty c).2.1,
      (sadEntry e.compressed e.nonempty c).2.2)
  else ([.aesInit], ⟨[]⟩, c)

/-- Is this entry suppressed by the filters (`walker.c:424-428`)? -/
def entrySuppressed (e : AEntry) (flags : WalkFlags) : Bool :=
  (flags.filterFiles && e.isDir) || (flags.filterDirs && !e.isDir)

/-- The entry loop of `walk_archive` (`walker.c:384-453`): build the
entry stream, apply the filters, invoke the callback, close the entry
stream, and stop on a non-zero callback return (entry-stream close
events emitted; the archive/wrapper closes are appended by
`walkArchive` on every path, matching the C's close-before-return). -/
def walkAEntries (flags : WalkFlags) (depth : Nat) :
    List AEntry → Nat → List WEvent × Int × Nat
  | [], c => ([], 0, c)
  | e :: rest, c =>
    if entrySuppressed e flags then
      ((entryStreamBuild e flags c).1 ++
          closeEvs (entryStreamBuild e flags c).2.1 ++
          (walkAEntries flags depth rest
            (entryStreamBuild e flags c).2.2).1,
        (walkAEntries flags depth rest (entryStreamBuild e flags c).2.2).2.1,
        (walkAEntries flags depth rest (entryStreamBuild e flags c).2.2).2.2)
    else if e.ret ≠ 0 then
      ((entryStreamBuild e flags c).1 ++ [.cb true e.isDir e.ret] ++
          closeEvs (entryStreamBuild e flags c).2.1,
        e.ret, (entryStreamBuild e flags c).2.2)
    else
      ((entryStreamBuild e flags c).1 ++ [.cb true e.isDir e.ret] ++
          closeEvs (entryStreamBuild e flags c).2.1 ++
          (walkAEntries flags depth rest
            (entryStreamBuild e flags c).2.2).1,
        (walkAEntries flags depth rest (entryStreamBuild e flags c).2.2).2.1,
        (walkAEntries flags depth rest (entryStreamBuild e flags c).2.2).2.2)

/-- `walk_archive` (`walker.c:352-464`): wrap the source with
decompression if requested (not owned — the caller closes the raw
source), open the archive (failure → `-Eio`, "not an archive"), run the
entry loop, close the archive and the wrapper on every exit path. -/
def walkArchive (fi : FileInfo) (flags : WalkFlags) (depth : Nat)
    (src : MStream) (c : Nat) : List WEvent × Int × Nat :=
  match fi.archive with
  | none =>
    (if flags.decompress then
      ((sadSeekable fi.compressed src false c).1 ++
        (if fi.compressed then
          closeEvs (sadSeekable fi.compressed src false c).2.1 else []),
        -Eio, (sadSeekable fi.compressed src false c).2.2)
    else ([], -Eio, c))
  | some entries =>
    if flags.decompress then
      ((sadSeekable fi.compressed src false c).1 ++
          [.openR (sadSeekable fi.compressed src false c).2.2] ++
          (walkAEntries flags depth entries
            ((sadSeekable fi.compressed src false c).2.2 + 1)).1 ++
          [.closeR (sadSeekable fi.compressed src false c).2.2] ++
          (if fi.compressed then
            closeEvs (sadSeekable fi.compressed src false c).2.1 else []),
        (walkAEntries flags depth entries
          ((sadSeekable fi.compressed src false c).2.2 + 1)).2.1,
        (walkAEntries flags depth entries
          ((sadSeekable fi.compressed src false c).2.2 + 1)).2.2)
    else
      ([.openR c] ++ (walkAEntries flags depth entries (c + 1)).1 ++
          [.closeR c],
        (walkAEntries flags depth entries (c + 1)).2.1,
        (walkAEntries flags depth entries (c + 1)).2.2)

/-- `walk_file` (`walker.c:119-203`): filters first (before any stream
is opened), then open the file stream, wrap it (owned) with
decompression if requested, invoke the callback, close the stream; on a
zero return and `WALK_EXPAND_ARCHIVES`, reopen the file, attempt the
archive walk, close the reopened file, and propagate its result only
when negative and not `-Eio`. -/
def walkFile (fi : FileInfo) (flags : WalkFlags) (depth : Nat) (c : Nat) :
    List WEvent × Int × Nat :=
  if flags.filterDirs then ([], 0, c)
  else
    if fi.ret ≠ 0 then
      ([.openR c] ++ (sadSeekable (flags.decompress && fi.compressed)
          ⟨[c]⟩ true (c + 1)).1 ++
        [.cb false false fi.ret] ++
        closeEvs (sadSeekable (flags.decompress && fi.compressed)
          ⟨[c]⟩ true (c + 1)).2.1,
        fi.ret,
        (sadSeekable (flags.decompress && fi.compressed) ⟨[c]⟩ true
          (c + 1)).2.2)
    else if flags.expandArchives then
      ([.openR c] ++ (sadSeekable (flags.decompress && fi.compressed)
          ⟨[c]⟩ true (c + 1)).1 ++
        [.cb false false fi.ret] ++
        closeEvs (sadSeekable (flags.decompress && fi.compressed)
          ⟨[c]⟩ true (c + 1)).2.1 ++
        [.openR ((sadSeekable (flags.decompress && fi.compressed) ⟨[c]⟩
          true (c + 1)).2.2)] ++
        (walkArchive fi flags (depth + 1)
          ⟨[(sadSeekable (flags.decompress && fi.compressed) ⟨[c]⟩ true
            (c + 1)).2.2]⟩
          ((sadSeekable (flags.decompress && fi.compressed) ⟨[c]⟩ true
            (c + 1)).2.2 + 1)).1 ++
        [.closeR ((sadSeekable (flags.decompress && fi.compressed) ⟨[c]⟩
          true (c + 1)).2.2)],
        (if (walkArchive fi flags (depth + 1)
              ⟨[(sadSeekable (flags.decompress && fi.compressed) ⟨[c]⟩
                true (c + 1)).2.2]⟩
              ((sadSeekable (flags.decompress && fi.compressed) ⟨[c]⟩
                true (c + 1)).2.2 + 1)).2.1 < 0 ∧
            (walkArchive fi flags (depth + 1)
              ⟨[(sadSeekable (flags.decompress && fi.compressed) ⟨[c]⟩
                true (c + 1)).2.2]⟩
              ((sadSeekable (flags.decompress && fi.compressed) ⟨[c]⟩
                true (c + 1)).2.2 + 1)).2.1 ≠ -Eio then
          (walkArchive fi flags (depth + 1)
            ⟨[(sadSeekable (flags.decompress && fi.compressed) ⟨[c]⟩
              true (c + 1)).2.2]⟩
            ((sadSeekable (flags.decompress && fi.compressed) ⟨[c]⟩
              true (c + 1)).2.2 + 1)).2.1
        else 0),
        (walkArchive fi flags (depth + 1)
          ⟨[(sadSeekable (flags.decompress && fi.compressed) ⟨[c]⟩ true
            (c + 1)).2.2]⟩
          ((sadSeekable (flags.decompress && fi.compressed) ⟨[c]⟩ true
            (c + 1)).2.2 + 1)).2.2)
    else
      ([.openR c] ++ (sadSeekable (flags.decompress && fi.compressed)
          ⟨[c]⟩ true (c + 1)).1 ++
        [.cb false false fi.ret] ++
        closeEvs (sadSeekable (flags.decompress && fi.compressed)
          ⟨[c]⟩ true (c + 1)).2.1,
        0,
        (sadSeekable (flags.decompress && fi.compressed) ⟨[c]⟩ true
          (c + 1)).2.2)

mutual

/-- `walk_directory` / per-node dispatch (`walker.c:206-299`,
`walker.c:488-492`): the directory's own callback first (unless
`WALK_FILTER_FILES`), then — with `WALK_RECURSE_DIRS` — the children in
order, stopping at the first non-zero result. -/
def walkNode : FSNode → WalkFlags → Nat → Nat →
    List WEvent × Int × Nat
  | .file fi, flags, depth, c => walkFile fi flags depth c
  | .dir ret children, flags, depth, c =>
    if flags.filterFiles then
      if flags.recurse then walkChildren children flags (depth + 1) c
      else ([], 0, c)
    else if ret ≠ 0 then ([.cb false true ret], ret, c)
    else if flags.recurse then
      (WEvent.cb false true ret ::
          (walkChildren children flags (depth + 1) c).1,
        (walkChildren children flags (depth + 1) c).2.1,
        (walkChildren children flags (depth + 1) c).2.2)
    else ([.cb false true ret], 0, c)

/-- The child loop of `walk_directory`. -/
def walkChildren : List FSNode → WalkFlags → Nat → Nat →
    List WEvent × Int × Nat
  | [], _, _, c => ([], 0, c)
  | n :: rest, flags, depth, c =>
    if (walkNode n flags depth c).2.1 ≠ 0 then walkNode n flags depth c
    else
      ((walkNode n flags depth c).1 ++
          (walkChildren rest flags depth (walkNode n flags depth c).2.2).1,
        (walkChildren rest flags depth (walkNode n flags depth c).2.2).2.1,
        (walkChildren rest flags depth (walkNode n flags depth c).2.2).2.2)

end

/-- `walk_path` (`walker.c:468-493`) with libarchive and compression
compiled in: dispatch on the root node at depth 0. -/
def walk_path (root : FSNode) (flags : WalkFlags) : List WEvent × Int :=
  ((walkNode root flags 0 0).1, (walkNode root flags 0 0).2.1)

/-- The callback events of a trace, in order: node kind and returned
value. -/
def cbList (evs : List WEvent) : List (Bool × Int) :=
  evs.filterMap fun e =>
    match e with
    | .cb arch _ r => some (arch, r)
    | _ => none

/-- The callback results from the first non-zero one on. -/
def afterZeros (l : List (Bool × Int)) : List (Bool × Int) :=
  l.dropWhile fun p => p.2 == 0

/-- The resource ids opened in a trace, in order. -/
def opensOf (evs : List WEvent) : List Nat :=
  evs.filterMap fun e =>
    match e with
    | .openR j => some j
    | _ => none

/-- The resource ids closed in a trace, in order. -/
def closesOf (evs : List WEvent) : List Nat :=
  evs.filterMap fun e =>
    match e with
    | .closeR j => some j
    | _ => none

/-- Every resource opened during the trace is closed exactly once by
it. -/
def balanced (evs : List WEvent) : Prop :=
  (opensOf evs).Perm (closesOf evs)

/-! ### Trace bookkeeping lemmas -/

lemma cbList_append (a b : List WEvent) :
    cbList (a ++ b) = cbList a ++ cbList b :=
  List.filterMap_append ..

lemma opensOf_append (a b : List WEvent) :
    opensOf (a ++ b) = opensOf a ++ opensOf b :=
  List.filterMap_append ..

lemma closesOf_append (a b : List WEvent) :
    closesOf (a ++ b) = closesOf a ++ closesOf b :=
  List.filterMap_append ..

lemma cbList_closeEvs (s : MStream) : cbList (closeEvs s) = [] := by
  show cbList (s.ids.map WEvent.closeR) = []
  induction s.ids with
  | nil => rfl
  | cons x xs ih => simpa [cbList] using ih

lemma opensOf_closeEvs (s : MStream) : opensOf (closeEvs s) = [] := by
  show opensOf (s.ids.map WEvent.closeR) = []
  induction s.ids with
  | nil => rfl
  | cons x xs ih => simpa [opensOf] using ih

lemma closesOf_closeEvs (s : MStream) : closesOf (closeEvs s) = s.ids := by
  show closesOf (s.ids.map WEvent.closeR) = s.ids
  induction s.ids with
  | nil => rfl
  | cons x xs ih => simpa [closesOf] using ih

lemma afterZeros_nil : afterZeros [] = [] := rfl

lemma afterZeros_cons_zero (b : Bool) (l : List (Bool × Int)) :
    afterZeros ((b, 0) :: l) = afterZeros l := by
  simp [afterZeros, List.dropWhile]

lemma afterZeros_cons_nonzero {r : Int} (hr : r ≠ 0) (b : Bool)
    (l : List (Bool × Int)) :
    afterZeros ((b, r) :: l) = (b, r) :: l := by
  have hb : (r == 0) = false := beq_eq_false_iff_ne.mpr hr
  simp [afterZeros, List.dropWhile, hb]

lemma afterZeros_append (l1 l2 : List (Bool × Int)) :
    afterZeros (l1 ++ l2) =
      if afterZeros l1 = [] then afterZeros l2
      else afterZeros l1 ++ l2 := by
  induction l1 with
  | nil => simp [afterZeros]
  | cons x l ih =>
    obtain ⟨b, r⟩ := x
    by_cases hr : r = 0
    · subst hr
      rw [List.cons_append, afterZeros_cons_zero, afterZeros_cons_zero, ih]
    · rw [List.cons_append, afterZeros_cons_nonzero hr,
        afterZeros_cons_nonzero hr]
      simp [afterZeros_cons_nonzero hr]

lemma afterZeros_head_ne {l : List (Bool × Int)} {b : Bool} {rr : Int}
    {tail : List (Bool × Int)} (h : afterZeros l = (b, rr) :: tail) :
    rr ≠ 0 := by
  induction l with
  | nil => simp [afterZeros] at h
  | cons x l ih =>
    obtain ⟨b', r'⟩ := x
    by_cases hr : r' = 0
    · subst hr
      rw [afterZeros_cons_zero] at h
      exact ih h
    · rw [afterZeros_cons_nonzero hr] at h
      cases h
      exact hr

/-! ### C5 -/

/-- C5, counterexample: a walk of a single regular file with
`WALK_FILTER_DIRS` set (and decompression and archive expansion
requested).  `walk_file` applies the filter before opening anything
(`walker.c:141-144`), so the trace is empty: the suppressed filesystem
file's stream is never opened, contradicting the claim that suppressed
nodes still get their stream opened and closed. -/
theorem C5_counterexample :
    walk_path (.file ⟨0, false, none⟩) ⟨true, true, true, false, true⟩ =
      ([], 0) ∧
    opensOf (walk_path (.file ⟨0, false, none⟩)
      ⟨true, true, true, false, true⟩).1 = [] := by
  refine ⟨rfl, rfl⟩

/-- C5, amended: the filters are applied before stream construction for
filesystem nodes — a filesystem file suppressed by `WALK_FILTER_DIRS`
produces no events at all (its stream is never opened, and archive
expansion is skipped) — while for archive entries they are applied at
emission time after stream construction: a regular-file archive entry
suppressed by `WALK_FILTER_DIRS` still has its per-entry stream
constructed (`archive_entry_stream_init`) and closed — every resource
opened for it is closed — and its callback is never invoked. -/
theorem C5_filter_timing (fi : FileInfo) (flags : WalkFlags)
    (depth c : Nat) (e : AEntry) (hfd : flags.filterDirs = true)
    (hed : e.isDir = false) :
    walkFile fi flags depth c = ([], 0, c) ∧
    cbList (walkAEntries flags depth [e] c).1 = [] ∧
    WEvent.aesInit ∈ (walkAEntries flags depth [e] c).1 ∧
    (walkAEntries flags depth [e] c).2.1 = 0 ∧
    balanced (walkAEntries flags depth [e] c).1 := by
  have hsup : entrySuppressed e flags = true := by
    simp [entrySuppressed, hfd, hed]
  have hone : walkAEntries flags depth [e] c =
      ((entryStreamBuild e flags c).1 ++
        closeEvs (entryStreamBuild e flags c).2.1 ++ [],
        0, (entryStreamBuild e flags c).2.2) := by
    rw [walkAEntries, if_pos hsup]
    rfl
  refine ⟨?_, ?_, ?_, ?_, ?_⟩
  · rw [walkFile, if_pos hfd]
  · rw [hone]
    simp only [List.append_nil, cbList_append, cbList_closeEvs,
      List.append_nil]
    rw [entryStreamBuild, if_neg (by simp [hed])]
    by_cases hdc : flags.decompress
    · rw [if_pos hdc]
      rw [sadEntry]
      by_cases hne : e.nonempty
      · rw [if_neg (by simp [hne])]
        by_cases hcp : e.compressed
        · rw [if_pos hcp]
          rfl
        · rw [if_neg hcp]
          rfl
      · rw [if_pos (by simp [hne])]
        rfl
    · rw [if_neg hdc]
      rfl
  · rw [hone]
    simp only [List.append_nil, List.mem_append]
    left
    rw [entryStreamBuild, if_neg (by simp [hed])]
    by_cases hdc : flags.decompress
    · rw [if_pos hdc]
      exact List.mem_cons_self ..
    · rw [if_neg hdc]
      exact List.mem_cons_self ..
  · rw [hone]
  · rw [hone]
    simp only [List.append_nil]
    rw [balanced, opensOf_append, closesOf_append, opensOf_closeEvs,
      closesOf_closeEvs, List.append_nil]
    rw [entryStreamBuild, if_neg (by simp [hed])]
    by_cases hdc : flags.decompress
    · rw [if_pos hdc]
      rw [sadEntry]
      by_cases hne : e.nonempty
      · rw [if_neg (by simp [hne])]
        by_cases hcp : e.compressed
        · rw [if_pos hcp]
          simp only
          show List.Perm (opensOf [.aesInit, .openR c, .openR (c + 1)])
            ((⟨[c + 1, c]⟩ : MStream).ids ++ [])
          simp only [opensOf, List.filterMap, List.append_nil]
          exact List.Perm.swap (c + 1) c []
        · rw [if_neg hcp]
          simp only
          show List.Perm (opensOf [.aesInit, .openR c])
            ((⟨[c]⟩ : MStream).ids ++ [])
          simp [opensOf, List.filterMap]
      · rw [if_pos (by simp [hne])]
        simp [opensOf, closesOf, List.filterMap]
    · rw [if_neg hdc]
      simp [opensOf, closesOf, List.filterMap]

/-- C5, witness: the amended theorem at a concrete suppressed
compressed archive entry and a concrete suppressed filesystem file. -/
theorem C5_filter_timing_witness :
    walkFile ⟨0, false, none⟩ ⟨false, false, true, false, true⟩ 0 0 =
      ([], 0, 0) ∧
    cbList (walkAEntries ⟨false, false, true, false, true⟩ 0
      [⟨false, 0, true, true⟩] 4).1 = [] ∧
    WEvent.aesInit ∈ (walkAEntries ⟨false, false, true, false, true⟩ 0
      [⟨false, 0, true, true⟩] 4).1 ∧
    balanced (walkAEntries ⟨false, false, true, false, true⟩ 0
      [⟨false, 0, true, true⟩] 4).1 :=
  have h := C5_filter_timing ⟨0, false, none⟩
    ⟨false, false, true, false, true⟩ 0 0 ⟨false, 0, true, true⟩ rfl rfl
  ⟨h.1,
   (C5_filter_timing ⟨0, false, none⟩ ⟨false, false, true, false, true⟩ 0 4
      ⟨false, 0, true, true⟩ rfl rfl).2.1,
   (C5_filter_timing ⟨0, false, none⟩ ⟨false, false, true, false, true⟩ 0 4
      ⟨false, 0, true, true⟩ rfl rfl).2.2.1,
   (C5_filter_timing ⟨0, false, none⟩ ⟨false, false, true, false, true⟩ 0 4
      ⟨false, 0, true, true⟩ rfl rfl).2.2.2.2⟩

/-! ### C3: early termination and cleanup -/

/-- Behaviour the walker's filesystem-level functions satisfy: an
all-zero callback trace yields result 0; if the first non-zero callback
value `rr` came from a filesystem node, or is negative and not `-Eio`,
the function returns exactly `rr` and no callback ran after it; and the
trace is balanced. -/
def NSpec (out : List WEvent × Int × Nat) : Prop :=
  (afterZeros (cbList out.1) = [] → out.2.1 = 0) ∧
  (∀ b rr tail, afterZeros (cbList out.1) = (b, rr) :: tail →
     (b = false ∨ (rr < 0 ∧ rr ≠ -Eio)) → out.2.1 = rr ∧ tail = []) ∧
  balanced out.1

/-- Behaviour of the archive-entry loop: every non-zero callback value
propagates unconditionally and stops the loop. -/
def AESpec (out : List WEvent × Int × Nat) : Prop :=
  (afterZeros (cbList out.1) = [] → out.2.1 = 0) ∧
  (∀ b rr tail, afterZeros (cbList out.1) = (b, rr) :: tail →
     out.2.1 = rr ∧ tail = [] ∧ b = true) ∧
  balanced out.1

/-- Behaviour of `walk_archive`: like the entry loop, except that an
all-zero trace may also end in `-Eio` ("not an archive"). -/
def ArSpec (out : List WEvent × Int × Nat) : Prop :=
  (afterZeros (cbList out.1) = [] → out.2.1 = 0 ∨ out.2.1 = -Eio) ∧
  (∀ b rr tail, afterZeros (cbList out.1) = (b, rr) :: tail →
     out.2.1 = rr ∧ tail = [] ∧ b = true) ∧
  balanced out.1

lemma sadEntry_parts (a b : Bool) (c : Nat) :
    cbList (sadEntry a b c).1 = [] ∧
    closesOf (sadEntry a b c).1 = [] ∧
    (opensOf (sadEntry a b c).1).Perm (sadEntry a b c).2.1.ids := by
  rw [sadEntry]
  by_cases hb : b
  · rw [if_neg (by simp [hb])]
    by_cases ha : a
    · rw [if_pos ha]
      exact ⟨rfl, rfl, List.Perm.swap (c + 1) c []⟩
    · rw [if_neg ha]
      exact ⟨rfl, rfl, List.Perm.refl _⟩
  · rw [if_pos (by simp [hb])]
    exact ⟨rfl, rfl, List.Perm.refl _⟩

lemma build_parts (e : AEntry) (flags : WalkFlags) (c : Nat) :
    cbList (entryStreamBuild e flags c).1 = [] ∧
    closesOf (entryStreamBuild e flags c).1 = [] ∧
    (opensOf (entryStreamBuild e flags c).1).Perm
      (entryStreamBuild e flags c).2.1.ids := by
  rw [entryStreamBuild]
  by_cases hd : e.isDir
  · rw [if_pos hd]
    exact ⟨rfl, rfl, List.Perm.refl _⟩
  · rw [if_neg hd]
    by_cases hdc : flags.decompress
    · rw [if_pos hdc]
      have h := sadEntry_parts e.compressed e.nonempty c
      refine ⟨?_, ?_, ?_⟩
      · show cbList (WEvent.aesInit :: (sadEntry e.compressed e.nonempty c).1) = []
        rw [show WEvent.aesInit :: (sadEntry e.compressed e.nonempty c).1 =
          [WEvent.aesInit] ++ (sadEntry e.compressed e.nonempty c).1 from rfl,
          cbList_append, h.1]
        rfl
      · show closesOf (WEvent.aesInit :: (sadEntry e.compressed e.nonempty c).1) = []
        rw [show WEvent.aesInit :: (sadEntry e.compressed e.nonempty c).1 =
          [WEvent.aesInit] ++ (sadEntry e.compressed e.nonempty c).1 from rfl,
          closesOf_append, h.2.1]
        rfl
      · show (opensOf (WEvent.aesInit ::
            (sadEntry e.compressed e.nonempty c).1)).Perm
            (sadEntry e.compressed e.nonempty c).2.1.ids
        rw [show WEvent.aesInit :: (sadEntry e.compressed e.nonempty c).1 =
          [WEvent.aesInit] ++ (sadEntry e.compressed e.nonempty c).1 from rfl,
          opensOf_append]
        exact h.2.2
    · rw [if_neg hdc]
      exact ⟨rfl, rfl, List.Perm.refl _⟩

lemma spec_walkAEntries (flags : WalkFlags) (depth : Nat) :
    ∀ (entries : List AEntry) (c : Nat),
      AESpec (walkAEntries flags depth entries c) := by
  intro entries
  induction entries with
  | nil =>
    intro c
    refine ⟨fun _ => rfl, fun b rr tail h => ?_, List.Perm.refl _⟩
    simp [walkAEntries, cbList, afterZeros] at h
  | cons e rest ih =>
    intro c
    have hB := build_parts e flags c
    by_cases hsup : entrySuppressed e flags = true
    · rw [walkAEntries, if_pos hsup]
      have hih := ih (entryStreamBuild e flags c).2.2
      refine ⟨?_, ?_, ?_⟩
      · intro h
        simp only [cbList_append, hB.1, cbList_closeEvs,
          List.nil_append] at h
        exact hih.1 h
      · intro b rr tail h
        simp only [cbList_append, hB.1, cbList_closeEvs,
          List.nil_append] at h
        exact hih.2.1 b rr tail h
      · show balanced _
        rw [balanced]
        simp only [opensOf_append, closesOf_append, hB.2.1,
          opensOf_closeEvs, closesOf_closeEvs, List.nil_append,
          List.append_nil]
        exact hB.2.2.append hih.2.2
    · by_cases hret : e.ret ≠ 0
      · rw [walkAEntries, if_neg hsup, if_pos hret]
        refine ⟨?_, ?_, ?_⟩
        · intro h
          simp only [cbList_append, hB.1, cbList_closeEvs,
            List.nil_append, List.append_nil] at h
          rw [show cbList [WEvent.cb true e.isDir e.ret] =
            [(true, e.ret)] from rfl] at h
          rw [afterZeros_cons_nonzero hret] at h
          simp at h
        · intro b rr tail h
          simp only [cbList_append, hB.1, cbList_closeEvs,
            List.nil_append, List.append_nil] at h
          rw [show cbList [WEvent.cb true e.isDir e.ret] =
            [(true, e.ret)] from rfl] at h
          rw [afterZeros_cons_nonzero hret] at h
          obtain ⟨h1, h2⟩ := List.cons.injEq .. ▸ h
          obtain ⟨hb, hr⟩ := Prod.mk.injEq .. ▸ h1
          exact ⟨hr ▸ rfl, h2.symm, hb.symm⟩
        · rw [balanced]
          simp only [opensOf_append, closesOf_append, hB.2.1,
            opensOf_closeEvs, closesOf_closeEvs, List.nil_append,
            List.append_nil]
          show (opensOf (entryStreamBuild e flags c).1 ++
            (opensOf [WEvent.cb true e.isDir e.ret] ++ [])).Perm
            (closesOf [WEvent.cb true e.isDir e.ret] ++
              (entryStreamBuild e flags c).2.1.ids)
          simp only [show opensOf [WEvent.cb true e.isDir e.ret] = []
            from rfl, show closesOf [WEvent.cb true e.isDir e.ret] = []
            from rfl, List.append_nil, List.nil_append]
          exact hB.2.2
      · push_neg at hret
        rw [walkAEntries, if_neg hsup, if_neg (by simpa using hret)]
        have hih := ih (entryStreamBuild e flags c).2.2
        refine ⟨?_, ?_, ?_⟩
        · intro h
          simp only [cbList_append, hB.1, cbList_closeEvs,
            List.nil_append] at h
          rw [show cbList [WEvent.cb true e.isDir e.ret] =
            [(true, e.ret)] from rfl, hret] at h
          simp only [List.append_nil, List.nil_append,
            List.singleton_append] at h
          rw [afterZeros_cons_zero] at h
          exact hih.1 h
        · intro b rr tail h
          simp only [cbList_append, hB.1, cbList_closeEvs,
            List.nil_append] at h
          rw [show cbList [WEvent.cb true e.isDir e.ret] =
            [(true, e.ret)] from rfl, hret] at h
          simp only [List.append_nil, List.nil_append,
            List.singleton_append] at h
          rw [afterZeros_cons_zero] at h
          exact hih.2.1 b rr tail h
        · rw [balanced]
          simp only [opensOf_append, closesOf_append, hB.2.1,
            opensOf_closeEvs, closesOf_closeEvs, List.nil_append,
            show opensOf [WEvent.cb true e.isDir e.ret] = [] from rfl,
            show closesOf [WEvent.cb true e.isDir e.ret] = [] from rfl,
            List.append_nil]
          exact hB.2.2.append hih.2.2

lemma sadSeekable_parts (k : Bool) (src : MStream) (c : Nat) :
    cbList (sadSeekable k src false c).1 = [] ∧
    closesOf (sadSeekable k src false c).1 = [] ∧
    (opensOf (sadSeekable k src false c).1).Perm
      (if k then (sadSeekable k src false c).2.1.ids else []) := by
  cases k <;>
    simp [sadSeekable, opensOf, closesOf, cbList, List.filterMap]

lemma perm_rotate3 (w a e : List Nat) :
    (w ++ (a ++ e)).Perm (e ++ (a ++ w)) := by
  have h1 : (w ++ (a ++ e)).Perm ((a ++ e) ++ w) := List.perm_append_comm
  have h3 : (a ++ (e ++ w)).Perm ((e ++ w) ++ a) := List.perm_append_comm
  have h5 : (w ++ a).Perm (a ++ w) := List.perm_append_comm
  refine h1.trans ?_
  rw [List.append_assoc]
  refine h3.trans ?_
  rw [List.append_assoc]
  exact List.Perm.append_left e h5

lemma cbList_openR (j : Nat) : cbList [WEvent.openR j] = [] := rfl

lemma cbList_closeR (j : Nat) : cbList [WEvent.closeR j] = [] := rfl

lemma opensOf_openR (j : Nat) : opensOf [WEvent.openR j] = [j] := rfl

lemma opensOf_closeR (j : Nat) : opensOf [WEvent.closeR j] = [] := rfl

lemma closesOf_openR (j : Nat) : closesOf [WEvent.openR j] = [] := rfl

lemma closesOf_closeR (j : Nat) : closesOf [WEvent.closeR j] = [j] := rfl

lemma cbList_wrapClose (k : Bool) (s : MStream) :
    cbList (if k = true then closeEvs s else []) = [] := by
  cases k
  · rfl
  · simp [cbList_closeEvs]

lemma opensOf_wrapClose (k : Bool) (s : MStream) :
    opensOf (if k = true then closeEvs s else []) = [] := by
  cases k
  · rfl
  · simp [opensOf_closeEvs]

lemma closesOf_wrapClose (k : Bool) (s : MStream) :
    closesOf (if k = true then closeEvs s else []) =
      (if k = true then s.ids else []) := by
  cases k
  · rfl
  · simp [closesOf_closeEvs]

lemma spec_walkArchive (fi : FileInfo) (flags : WalkFlags) (depth : Nat)
    (src : MStream) (c : Nat) :
    ArSpec (walkArchive fi flags depth src c) := by
  rcases harch : fi.archive with _ | entries
  · by_cases hdc : flags.decompress = true
    · simp only [walkArchive, harch, if_pos hdc]
      have hS := sadSeekable_parts fi.compressed src c
      refine ⟨fun _ => Or.inr rfl, fun b rr tail h => ?_, ?_⟩
      · rw [cbList_append, hS.1, List.nil_append, cbList_wrapClose] at h
        simp [afterZeros] at h
      · rw [balanced, opensOf_append, closesOf_append, hS.2.1,
          List.nil_append, closesOf_wrapClose, opensOf_wrapClose,
          List.append_nil]
        exact hS.2.2
    · simp only [walkArchive, harch, if_neg hdc]
      exact ⟨fun _ => Or.inr rfl,
        fun b rr tail h => by simp [cbList, afterZeros] at h,
        List.Perm.refl _⟩
  · by_cases hdc : flags.decompress = true
    · simp only [walkArchive, harch, if_pos hdc]
      have hS := sadSeekable_parts fi.compressed src c
      have hAE := spec_walkAEntries flags depth entries
        ((sadSeekable fi.compressed src false c).2.2 + 1)
      refine ⟨?_, ?_, ?_⟩
      · intro h
        simp only [cbList_append, hS.1, cbList_openR, cbList_closeR,
          cbList_wrapClose, List.nil_append, List.append_nil] at h
        exact Or.inl (hAE.1 h)
      · intro b rr tail h
        simp only [cbList_append, hS.1, cbList_openR, cbList_closeR,
          cbList_wrapClose, List.nil_append, List.append_nil] at h
        exact hAE.2.1 b rr tail h
      · rw [balanced]
        simp only [opensOf_append, closesOf_append, hS.2.1,
          opensOf_openR, opensOf_closeR, opensOf_wrapClose,
          closesOf_openR, closesOf_closeR, closesOf_wrapClose,
          List.append_assoc, List.nil_append, List.append_nil]
        refine List.Perm.trans
          (List.Perm.append hS.2.2
            (List.Perm.append_left _ hAE.2.2)) ?_
        exact perm_rotate3 _ _ _
    · simp only [walkArchive, harch, if_neg hdc]
      have hAE := spec_walkAEntries flags depth entries (c + 1)
      refine ⟨?_, ?_, ?_⟩
      · intro h
        simp only [cbList_append, cbList_openR, cbList_closeR,
          List.nil_append, List.append_nil] at h
        exact Or.inl (hAE.1 h)
      · intro b rr tail h
        simp only [cbList_append, cbList_openR, cbList_closeR,
          List.nil_append, List.append_nil] at h
        exact hAE.2.1 b rr tail h
      · rw [balanced]
        simp only [opensOf_append, closesOf_append, opensOf_openR,
          opensOf_closeR, closesOf_openR, closesOf_closeR,
          List.append_assoc, List.nil_append, List.append_nil]
        refine List.Perm.trans
          (List.Perm.append_left [c] hAE.2.2) ?_
        exact List.perm_append_comm

lemma sadSeekable_own_parts (k : Bool) (c : Nat) :
    cbList (sadSeekable k ⟨[c]⟩ true (c + 1)).1 = [] ∧
    closesOf (sadSeekable k ⟨[c]⟩ true (c + 1)).1 = [] ∧
    (([c] ++ opensOf (sadSeekable k ⟨[c]⟩ true (c + 1)).1).Perm
      (sadSeekable k ⟨[c]⟩ true (c + 1)).2.1.ids) := by
  cases k
  · exact ⟨rfl, rfl, List.Perm.refl _⟩
  · exact ⟨rfl, rfl, List.Perm.swap (c + 1) c []⟩

lemma spec_walkFile (fi : FileInfo) (flags : WalkFlags) (depth c : Nat) :
    NSpec (walkFile fi flags depth c) := by
  have hC := sadSeekable_own_parts (flags.decompress && fi.compressed) c
  by_cases hfd : flags.filterDirs = true
  · rw [walkFile, if_pos hfd]
    exact ⟨fun _ => rfl,
      fun b rr tail h => by simp [cbList, afterZeros] at h,
      List.Perm.refl _⟩
  · by_cases hret : fi.ret ≠ 0
    · rw [walkFile, if_neg hfd, if_pos hret]
      refine ⟨?_, ?_, ?_⟩
      · intro h
        simp only [cbList_append, hC.1, cbList_closeEvs, cbList_openR,
          List.nil_append, List.append_nil] at h
        rw [show cbList [WEvent.cb false false fi.ret] =
          [(false, fi.ret)] from rfl, afterZeros_cons_nonzero hret] at h
        simp at h
      · intro b rr tail h hgood
        simp only [cbList_append, hC.1, cbList_closeEvs, cbList_openR,
          List.nil_append, List.append_nil] at h
        rw [show cbList [WEvent.cb false false fi.ret] =
          [(false, fi.ret)] from rfl, afterZeros_cons_nonzero hret] at h
        obtain ⟨h1, h2⟩ := List.cons.injEq .. ▸ h
        obtain ⟨_, hr⟩ := Prod.mk.injEq .. ▸ h1
        exact ⟨hr ▸ rfl, h2.symm⟩
      · rw [balanced]
        simp only [opensOf_append, closesOf_append, hC.2.1, opensOf_openR,
          closesOf_openR, opensOf_closeEvs, closesOf_closeEvs,
          show opensOf [WEvent.cb false false fi.ret] = [] from rfl,
          show closesOf [WEvent.cb false false fi.ret] = [] from rfl,
          List.append_assoc, List.nil_append, List.append_nil]
        exact hC.2.2
    · push_neg at hret
      by_cases hex : flags.expandArchives = true
      · rw [walkFile, if_neg hfd, if_neg (by simpa using hret), if_pos hex]
        have hAr := spec_walkArchive fi flags (depth + 1)
          ⟨[(sadSeekable (flags.decompress && fi.compressed) ⟨[c]⟩ true
            (c + 1)).2.2]⟩
          ((sadSeekable (flags.decompress && fi.compressed) ⟨[c]⟩ true
            (c + 1)).2.2 + 1)
        refine ⟨?_, ?_, ?_⟩
        · intro h
          simp only [cbList_append, hC.1, cbList_closeEvs, cbList_openR,
            cbList_closeR, List.nil_append, List.append_nil] at h
          rw [show cbList [WEvent.cb false false fi.ret] =
            [(false, fi.ret)] from rfl, hret, List.singleton_append,
            afterZeros_cons_zero] at h
          rcases hAr.1 h with h0 | hEio
          · simp only [h0]
            norm_num
          · simp only [hEio]
            norm_num [Eio]
        · intro b rr tail h hgood
          simp only [cbList_append, hC.1, cbList_closeEvs, cbList_openR,
            cbList_closeR, List.nil_append, List.append_nil] at h
          rw [show cbList [WEvent.cb false false fi.ret] =
            [(false, fi.ret)] from rfl, hret, List.singleton_append,
            afterZeros_cons_zero] at h
          obtain ⟨hr, htail, hb⟩ := hAr.2.1 b rr tail h
          rcases hgood with hgood | hgood
          · rw [hb] at hgood
            exact absurd hgood (by simp)
          · refine ⟨?_, htail⟩
            rw [if_pos (by rw [hr]; exact hgood)]
            exact hr
        · rw [balanced]
          simp only [opensOf_append, closesOf_append, hC.2.1,
            opensOf_openR, opensOf_closeR, closesOf_openR,
            closesOf_closeR, opensOf_closeEvs, closesOf_closeEvs,
            show opensOf [WEvent.cb false false fi.ret] = [] from rfl,
            show closesOf [WEvent.cb false false fi.ret] = [] from rfl,
            List.append_assoc, List.nil_append, List.append_nil]
          rw [← List.append_assoc [c]]
          refine List.Perm.trans
            (List.Perm.append hC.2.2
              (List.Perm.append_left _ hAr.2.2)) ?_
          exact List.Perm.append_left _ List.perm_append_comm
      · rw [walkFile, if_neg hfd, if_neg (by simpa using hret),
          if_neg hex]
        refine ⟨fun _ => rfl, ?_, ?_⟩
        · intro b rr tail h hgood
          simp only [cbList_append, hC.1, cbList_closeEvs, cbList_openR,
            List.nil_append, List.append_nil] at h
          rw [show cbList [WEvent.cb false false fi.ret] =
            [(false, fi.ret)] from rfl, hret] at h
          simp [afterZeros_cons_zero, afterZeros] at h
        · rw [balanced]
          simp only [opensOf_append, closesOf_append, hC.2.1,
            opensOf_openR, closesOf_openR, opensOf_closeEvs,
            closesOf_closeEvs,
            show opensOf [WEvent.cb false false fi.ret] = [] from rfl,
            show closesOf [WEvent.cb false false fi.ret] = [] from rfl,
            List.append_assoc, List.nil_append, List.append_nil]
          exact hC.2.2

lemma cbList_cons_cb (a d : Bool) (r : Int) (l : List WEvent) :
    cbList (WEvent.cb a d r :: l) = (a, r) :: cbList l := rfl

lemma opensOf_cons_cb (a d : Bool) (r : Int) (l : List WEvent) :
    opensOf (WEvent.cb a d r :: l) = opensOf l := rfl

lemma closesOf_cons_cb (a d : Bool) (r : Int) (l : List WEvent) :
    closesOf (WEvent.cb a d r :: l) = closesOf l := rfl

mutual

theorem spec_walkNode : ∀ (n : FSNode) (flags : WalkFlags) (depth c : Nat),
    NSpec (walkNode n flags depth c)
  | .file fi, flags, depth, c => spec_walkFile fi flags depth c
  | .dir ret children, flags, depth, c => by
    rw [walkNode]
    by_cases hff : flags.filterFiles = true
    · rw [if_pos hff]
      by_cases hrec : flags.recurse = true
      · rw [if_pos hrec]
        exact spec_walkChildren children flags (depth + 1) c
      · rw [if_neg hrec]
        exact ⟨fun _ => rfl,
          fun b rr tail h => by simp [cbList, afterZeros] at h,
          List.Perm.refl _⟩
    · rw [if_neg hff]
      by_cases hret : ret ≠ 0
      · rw [if_pos hret]
        refine ⟨?_, ?_, List.Perm.refl _⟩
        · intro h
          rw [show cbList [WEvent.cb false true ret] = [(false, ret)]
            from rfl, afterZeros_cons_nonzero hret] at h
          simp at h
        · intro b rr tail h _
          rw [show cbList [WEvent.cb false true ret] = [(false, ret)]
            from rfl, afterZeros_cons_nonzero hret] at h
          obtain ⟨h1, h2⟩ := List.cons.injEq .. ▸ h
          obtain ⟨_, hr⟩ := Prod.mk.injEq .. ▸ h1
          exact ⟨hr ▸ rfl, h2.symm⟩
      · push_neg at hret
        rw [if_neg (by simpa using hret)]
        by_cases hrec : flags.recurse = true
        · rw [if_pos hrec]
          have hch := spec_walkChildren children flags (depth + 1) c
          subst hret
          refine ⟨?_, ?_, ?_⟩
          · intro h
            rw [cbList_cons_cb, afterZeros_cons_zero] at h
            exact hch.1 h
          · intro b rr tail h hgood
            rw [cbList_cons_cb, afterZeros_cons_zero] at h
            exact hch.2.1 b rr tail h hgood
          · rw [balanced, opensOf_cons_cb, closesOf_cons_cb]
            exact hch.2.2
        · rw [if_neg hrec]
          subst hret
          refine ⟨fun _ => rfl, ?_, List.Perm.refl _⟩
          intro b rr tail h _
          rw [show cbList [WEvent.cb false true 0] = [(false, 0)]
            from rfl, afterZeros_cons_zero] at h
          simp [afterZeros] at h

theorem spec_walkChildren : ∀ (l : List FSNode) (flags : WalkFlags)
    (depth c : Nat), NSpec (walkChildren l flags depth c)
  | [], flags, depth, c => by
    rw [walkChildren]
    exact ⟨fun _ => rfl,
      fun b rr tail h => by simp [cbList, afterZeros] at h,
      List.Perm.refl _⟩
  | n :: rest, flags, depth, c => by
    have hn := spec_walkNode n flags depth c
    have hr := spec_walkChildren rest flags depth
      (walkNode n flags depth c).2.2
    rw [walkChildren]
    by_cases hnz : (walkNode n flags depth c).2.1 ≠ 0
    · rw [if_pos hnz]
      exact hn
    · push_neg at hnz
      rw [if_neg (by simpa using hnz)]
      refine ⟨?_, ?_, ?_⟩
      · intro h
        rw [cbList_append, afterZeros_append] at h
        by_cases hzn : afterZeros (cbList (walkNode n flags depth c).1) = []
        · rw [if_pos hzn] at h
          exact hr.1 h
        · rw [if_neg hzn] at h
          exact absurd (List.append_eq_nil.mp h).1 hzn
      · intro b rr tail h hgood
        rw [cbList_append, afterZeros_append] at h
        by_cases hzn : afterZeros (cbList (walkNode n flags depth c).1) = []
        · rw [if_pos hzn] at h
          exact hr.2.1 b rr tail h hgood
        · rw [if_neg hzn] at h
          obtain ⟨p, t0, hp⟩ := List.exists_cons_of_ne_nil hzn
          obtain ⟨b0, r0⟩ := p
          rw [hp, List.cons_append] at h
          obtain ⟨h1, _⟩ := List.cons.injEq .. ▸ h
          obtain ⟨hb0, hr0⟩ := Prod.mk.injEq .. ▸ h1
          have hne := afterZeros_head_ne hp
          have := (hn.2.1 b0 r0 t0 hp (hb0 ▸ hr0 ▸ hgood)).1
          rw [hnz] at this
          exact absurd this.symm hne
      · rw [balanced, opensOf_append, closesOf_append]
        exact hn.2.2.append hr.2.2

end

/-- C3, counterexample: a directory holding an archive file (one entry,
callback value 1) and a plain file.  The callback returns 1 on the
archive entry, yet `walk_path` returns 0 — `walk_file` forwards an
archive-walk result only when it is negative and not `-Eio`
(`walker.c:197-198`) — and the callback still fires for the plain file
after the non-zero return. -/
theorem C3_counterexample :
    cbList (walk_path
      (.dir 0 [.file ⟨0, false, some [⟨false, 1, false, true⟩]⟩,
        .file ⟨0, false, none⟩]) ⟨true, true, false, false, false⟩).1 =
      [(false, 0), (false, 0), (true, 1), (false, 0)] ∧
    (walk_path
      (.dir 0 [.file ⟨0, false, some [⟨false, 1, false, true⟩]⟩,
        .file ⟨0, false, none⟩]) ⟨true, true, false, false, false⟩).2 =
      0 := by
  refine ⟨by decide, by decide⟩

/-- C3, amended: if the callback returns a non-zero value `rr` on some
visited node, and that node is a filesystem node, or `rr` is negative
and differs from `-Eio`, then `walk_path` returns exactly `rr` and the
callback is never invoked for any node after that one; and in every walk
each stream resource opened at any recursion level is closed exactly
once.  (A positive value, or `-Eio`, returned by the callback on an
*archive entry* aborts only that archive's walk: `walk_file` swallows it
like an archive-open failure and the traversal continues.) -/
theorem C3_early_termination (root : FSNode) (flags : WalkFlags)
    (b : Bool) (rr : Int) (tail : List (Bool × Int))
    (h : afterZeros (cbList (walk_path root flags).1) = (b, rr) :: tail)
    (hgood : b = false ∨ (rr < 0 ∧ rr ≠ -Eio)) :
    (walk_path root flags).2 = rr ∧ tail = [] ∧
    balanced (walk_path root flags).1 := by
  have hs := spec_walkNode root flags 0 0
  have h2 := hs.2.1 b rr tail h hgood
  exact ⟨h2.1, h2.2, hs.2.2⟩

/-- C3, witness: a directory of two files whose callback returns `-2`
on the first: the walk returns `-2`, no callback fires afterwards, and
the trace is balanced. -/
theorem C3_early_termination_witness :
    (walk_path (.dir 0 [.file ⟨-2, false, none⟩, .file ⟨0, false, none⟩])
      ⟨true, false, false, false, false⟩).2 = -2 ∧
    balanced (walk_path
      (.dir 0 [.file ⟨-2, false, none⟩, .file ⟨0, false, none⟩])
      ⟨true, false, false, false, false⟩).1 :=
  have h := C3_early_termination
    (.dir 0 [.file ⟨-2, false, none⟩, .file ⟨0, false, none⟩])
    ⟨true, false, false, false, false⟩ false (-2) [] (by decide)
    (Or.inl rfl)
  ⟨h.1, h.2.2⟩

end Streamlib
